import Mathlib

/-!
Shallow embedding of the EngAi multi-agent orchestration backend.

Text is modelled as `List Char`; Python regex scans are modelled as
explicit left-to-right scanning functions; JSON values and `json.loads`
are modelled by an executable fuelled parser; the MCP dispatch server is
modelled as explicit state passing with a single-thread mutual-exclusion
lock flag (Python `threading.Lock` is non-reentrant, so acquiring a lock
already held by the running thread blocks forever, modelled as a
distinguished deadlock outcome).
-/

namespace EngAi

/-- Python whitespace for `str.strip` and regex `\s` (ASCII range). -/
def pyWs (c : Char) : Bool :=
  c = ' ' || c = '\t' || c = '\n' || c = '\r' || c = '\x0b' || c = '\x0c'

/-- Python `str.lstrip()`. -/
def trimL (cs : List Char) : List Char := cs.dropWhile pyWs

/-- Python `str.rstrip()`. -/
def trimR (cs : List Char) : List Char := (cs.reverse.dropWhile pyWs).reverse

/-- Python `str.strip()`. -/
def pyStrip (cs : List Char) : List Char := trimR (trimL cs)

/-- String literal to char list. -/
def sl (s : String) : List Char := s.data

/-- Split a char list at the first occurrence of `pat`:
`findSub pat cs = some (pre, post)` with `cs = pre ++ pat ++ post` and no
occurrence of `pat` starting inside `pre`.  Models the non-greedy regex
search for a literal, and Python `str.find`-based slicing. -/
def findSub (pat : List Char) : List Char → Option (List Char × List Char)
  | [] => if pat.isPrefixOf ([] : List Char) then some ([], []) else none
  | c :: cs =>
    if pat.isPrefixOf (c :: cs) then some ([], (c :: cs).drop pat.length)
    else
      match findSub pat cs with
      | some (pre, post) => some (c :: pre, post)
      | none => none

/-- Whether `pat` occurs as a contiguous sublist. -/
def containsSub (pat cs : List Char) : Bool := (findSub pat cs).isSome

/-- First `some` value of `f` over a list, in order. -/
def firstSome {α β : Type} (f : α → Option β) : List α → Option β
  | [] => none
  | a :: as =>
    match f a with
    | some b => some b
    | none => firstSome f as

/-- Candidate end positions for the regex fragment `\s*\n` applied at the
start of `cs`: the indices of `'\n'` inside the leading whitespace run,
tried from the last (greedy `\s*`) backwards (backtracking). -/
def wsNlCandidates (cs : List Char) : List Nat :=
  let run := cs.takeWhile pyWs
  ((List.range run.length).filter (fun i => run.get? i = some '\n')).reverse

/-- Match the regex `openTag\s*\n(.*?)closer` exactly at the start of `cs`
(DOTALL), returning the captured group and the remainder after the whole
match.  Greedy `\s*` with backtracking, non-greedy group. -/
def matchFencedAt (openTag closer cs : List Char) : Option (List Char × List Char) :=
  if openTag.isPrefixOf cs then
    let tail := cs.drop openTag.length
    firstSome (fun p => findSub closer (tail.drop (p + 1))) (wsNlCandidates tail)
  else none

/-- `re.search` for `openTag\s*\n(.*?)closer`: first position (left to
right) where the whole pattern matches; returns the captured group. -/
def reSearchFenced (openTag closer : List Char) : Nat → List Char → Option (List Char)
  | 0, _ => none
  | fuel + 1, cs =>
    match matchFencedAt openTag closer cs with
    | some (g, _) => some g
    | none =>
      match cs with
      | [] => none
      | _ :: t => reSearchFenced openTag closer fuel t

/-- `re.findall` for `openTag\s*\n(.*?)closer`: leftmost non-overlapping
matches, scanning resumes after each whole match. -/
def reFindAllFenced (openTag closer : List Char) : Nat → List Char → List (List Char)
  | 0, _ => []
  | fuel + 1, cs =>
    match matchFencedAt openTag closer cs with
    | some (g, rest) => g :: reFindAllFenced openTag closer fuel rest
    | none =>
      match cs with
      | [] => []
      | _ :: t => reFindAllFenced openTag closer fuel t

/-! ## JSON values and a model of `json.loads` (CPython default flags) -/

/-- JSON values.  Numbers keep their source lexeme (no claim compares
numbers numerically); object fields keep insertion order, later duplicate
keys overwrite in place as in a Python dict. -/
inductive Json where
  | null
  | bool (b : Bool)
  | num (lexeme : List Char)
  | str (s : List Char)
  | arr (elems : List Json)
  | obj (fields : List (List Char × Json))

/-- Python-dict insertion: overwrite in place if the key exists, else
append. -/
def objInsert (kvs : List (List Char × Json)) (k : List Char) (v : Json) :
    List (List Char × Json) :=
  if kvs.any (fun kv => kv.1 = k) then
    kvs.map (fun kv => if kv.1 = k then (k, v) else kv)
  else kvs ++ [(k, v)]

/-- Key lookup in a parsed JSON object (`doc[k]` / `k in doc`). -/
def objLookup (kvs : List (List Char × Json)) (k : List Char) : Option Json :=
  (kvs.find? (fun kv => kv.1 = k)).map (fun kv => kv.2)

/-- JSON literal whitespace (CPython `json` skips exactly these). -/
def jsonWs (c : Char) : Bool := c = ' ' || c = '\t' || c = '\n' || c = '\r'

def jsonSkipWs (cs : List Char) : List Char := cs.dropWhile jsonWs

def hexVal (c : Char) : Option Nat :=
  if '0' ≤ c ∧ c ≤ '9' then some (c.toNat - '0'.toNat)
  else if 'a' ≤ c ∧ c ≤ 'f' then some (c.toNat - 'a'.toNat + 10)
  else if 'A' ≤ c ∧ c ≤ 'F' then some (c.toNat - 'A'.toNat + 10)
  else none

def escChar (c : Char) : Option Char :=
  if c = '"' then some '"'
  else if c = '\\' then some '\\'
  else if c = '/' then some '/'
  else if c = 'b' then some '\x08'
  else if c = 'f' then some '\x0c'
  else if c = 'n' then some '\n'
  else if c = 'r' then some '\r'
  else if c = 't' then some '\t'
  else none

/-- Body of a JSON string after the opening quote: returns the decoded
characters and the remainder after the closing quote.  Raw control
characters are rejected (CPython strict mode); `\uXXXX` decodes to the
code point (surrogate-pair recombination is not modelled). -/
def jparseStringBody : List Char → Option (List Char × List Char)
  | [] => none
  | c :: rest =>
    if c = '"' then some ([], rest)
    else if c = '\\' then
      match rest with
      | [] => none
      | e :: rest2 =>
        if e = 'u' then
          match rest2 with
          | a :: b :: c2 :: d :: rest3 =>
            match hexVal a, hexVal b, hexVal c2, hexVal d with
            | some ha, some hb, some hc, some hd =>
              (fun p : List Char × List Char =>
                (Char.ofNat (((ha * 16 + hb) * 16 + hc) * 16 + hd) :: p.1, p.2)) <$>
                jparseStringBody rest3
            | _, _, _, _ => none
          | _ => none
        else
          match escChar e with
          | some ec => (fun p : List Char × List Char => (ec :: p.1, p.2)) <$>
              jparseStringBody rest2
          | none => none
    else if c.toNat < 0x20 then none
    else (fun p : List Char × List Char => (c :: p.1, p.2)) <$> jparseStringBody rest

def isDigit (c : Char) : Bool := '0' ≤ c && c ≤ '9'

/-- JSON number per CPython's NUMBER_RE: `(-?(?:0|[1-9]\d*))(\.\d+)?([eE][-+]?\d+)?`;
returns the lexeme.  The fractional/exponent groups are optional and are
dropped (not an error) when incomplete. -/
def jparseNumber (cs : List Char) : Option (List Char × List Char) :=
  let (sign, r1) :=
    match cs with
    | '-' :: r => (['-'], r)
    | _ => (([] : List Char), cs)
  match r1 with
  | [] => none
  | d :: r2 =>
    if d = '0' then
      let intPart := [d]
      let rest := r2
      let (frac, rest2) :=
        match rest with
        | '.' :: fr =>
          let ds := fr.takeWhile isDigit
          if ds = [] then (([] : List Char), rest) else ('.' :: ds, fr.drop ds.length)
        | _ => (([] : List Char), rest)
      let (ex, rest3) :=
        match rest2 with
        | e :: er =>
          if e = 'e' ∨ e = 'E' then
            let (sgn, er2) :=
              match er with
              | s :: er2 => if s = '+' ∨ s = '-' then ([s], er2) else (([] : List Char), er)
              | [] => (([] : List Char), er)
            let ds := er2.takeWhile isDigit
            if ds = [] then (([] : List Char), rest2) else (e :: (sgn ++ ds), er2.drop ds.length)
          else (([] : List Char), rest2)
        | [] => (([] : List Char), rest2)
      some (sign ++ intPart ++ frac ++ ex, rest3)
    else if isDigit d then
      let ds := r2.takeWhile isDigit
      let intPart := d :: ds
      let rest := r2.drop ds.length
      let (frac, rest2) :=
        match rest with
        | '.' :: fr =>
          let fds := fr.takeWhile isDigit
          if fds = [] then (([] : List Char), rest) else ('.' :: fds, fr.drop fds.length)
        | _ => (([] : List Char), rest)
      let (ex, rest3) :=
        match rest2 with
        | e :: er =>
          if e = 'e' ∨ e = 'E' then
            let (sgn, er2) :=
              match er with
              | s :: er2 => if s = '+' ∨ s = '-' then ([s], er2) else (([] : List Char), er)
              | [] => (([] : List Char), er)
            let eds := er2.takeWhile isDigit
            if eds = [] then (([] : List Char), rest2) else (e :: (sgn ++ eds), er2.drop eds.length)
          else (([] : List Char), rest2)
        | [] => (([] : List Char), rest2)
      some (sign ++ intPart ++ frac ++ ex, rest3)
    else none

mutual

/-- Parse one JSON value starting exactly at `cs` (no leading whitespace).
Mirrors CPython's scanner dispatch on the first character. -/
def jparseVal : Nat → List Char → Option (Json × List Char)
  | 0, _ => none
  | fuel + 1, cs =>
    match cs with
    | [] => none
    | c :: rest =>
      if c = '"' then
        (fun p : List Char × List Char => (Json.str p.1, p.2)) <$> jparseStringBody rest
      else if c = '{' then
        let r := jsonSkipWs rest
        match r with
        | '}' :: r2 => some (Json.obj [], r2)
        | _ => jparseObjRest fuel [] r
      else if c = '[' then
        let r := jsonSkipWs rest
        match r with
        | ']' :: r2 => some (Json.arr [], r2)
        | _ => jparseArrRest fuel [] r
      else if (sl "null").isPrefixOf cs then some (Json.null, cs.drop 4)
      else if (sl "true").isPrefixOf cs then some (Json.bool true, cs.drop 4)
      else if (sl "false").isPrefixOf cs then some (Json.bool false, cs.drop 5)
      else if (sl "NaN").isPrefixOf cs then some (Json.num (sl "NaN"), cs.drop 3)
      else if (sl "Infinity").isPrefixOf cs then some (Json.num (sl "Infinity"), cs.drop 8)
      else if (sl "-Infinity").isPrefixOf cs then some (Json.num (sl "-Infinity"), cs.drop 9)
      else
        (fun p : List Char × List Char => (Json.num p.1, p.2)) <$> jparseNumber cs

/-- Members of an object after `{` (or after a `,`), whitespace already
skipped, expecting a quoted key. -/
def jparseObjRest : Nat → List (List Char × Json) → List Char →
    Option (Json × List Char)
  | 0, _, _ => none
  | fuel + 1, acc, cs =>
    match cs with
    | '"' :: rest =>
      match jparseStringBody rest with
      | none => none
      | some (key, r1) =>
        match jsonSkipWs r1 with
        | ':' :: r2 =>
          match jparseVal fuel (jsonSkipWs r2) with
          | none => none
          | some (v, r3) =>
            let acc2 := objInsert acc key v
            match jsonSkipWs r3 with
            | '}' :: r4 => some (Json.obj acc2, r4)
            | ',' :: r4 => jparseObjRest fuel acc2 (jsonSkipWs r4)
            | _ => none
        | _ => none
    | _ => none

/-- Items of an array after `[` (or after a `,`), whitespace already
skipped, expecting a value. -/
def jparseArrRest : Nat → List Json → List Char → Option (Json × List Char)
  | 0, _, _ => none
  | fuel + 1, acc, cs =>
    match jparseVal fuel cs with
    | none => none
    | some (v, r1) =>
      let acc2 := acc ++ [v]
      match jsonSkipWs r1 with
      | ']' :: r2 => some (Json.arr acc2, r2)
      | ',' :: r2 => jparseArrRest fuel acc2 (jsonSkipWs r2)
      | _ => none

end

/-- Model of `json.loads`: the whole input, up to surrounding JSON
whitespace, must be a single value. -/
def jsonLoads (cs : List Char) : Option Json :=
  match jparseVal (2 * cs.length + 2) (jsonSkipWs cs) with
  | some (v, rest) => if jsonSkipWs rest = [] then some v else none
  | none => none

/-! ## Python semantics of `in` and subscription on a parsed document -/

/-- Python `key in doc` for a string key: dict key membership, list
element membership, substring test on strings; a `TypeError` on
non-iterable values (the agent code does not catch it). -/
def pyIn (key : List Char) : Json → Except (List Char) Bool
  | .obj kvs => .ok (objLookup kvs key).isSome
  | .arr xs => .ok (xs.any fun j => match j with | .str t => t = key | _ => false)
  | .str s => .ok (containsSub key s)
  | _ => .error (sl "TypeError")

/-- Python `doc[key]` for a string key. -/
def pyGetItem (doc : Json) (key : List Char) : Except (List Char) Json :=
  match doc with
  | .obj kvs =>
    match objLookup kvs key with
    | some v => .ok v
    | none => .error (sl "KeyError")
  | _ => .error (sl "TypeError")

/-! ## `DatabaseAgent._extract_sql_schema` -/

/-- `re.search(r'```sql\s*\n(.*?)```', s, re.DOTALL)`, captured group. -/
def fencedSqlSearch (cs : List Char) : Option (List Char) :=
  reSearchFenced (sl "```sql") (sl "```") (cs.length + 1) cs

/-- Lowercased literal `CREATE TABLE` for the IGNORECASE scan. -/
def ctMarker : List Char := sl "create table"

/-- `re.findall(r'(CREATE TABLE[^;]+(?:;|$))', s, re.I | re.S | re.M)`:
each match runs from a case-insensitive `CREATE TABLE` through the maximal
semicolon-free run, including a following `;` when present (at least one
non-`;` character is required after the marker). -/
def scanCreateTable : Nat → List Char → List (List Char)
  | 0, _ => []
  | fuel + 1, cs =>
    if ctMarker.isPrefixOf ((cs.take 12).map Char.toLower) then
      let after := cs.drop 12
      let body := after.takeWhile (fun c => c ≠ ';')
      if body = [] then
        match cs with
        | [] => []
        | _ :: t => scanCreateTable fuel t
      else
        let semi := (after.drop body.length).take 1
        (cs.take 12 ++ body ++ semi) ::
          scanCreateTable fuel (after.drop (body.length + semi.length))
    else
      match cs with
      | [] => []
      | _ :: t => scanCreateTable fuel t

/-- `DatabaseAgent._extract_sql_schema` (src/Backend/src/agents/database_agent.py:35). -/
def extract_sql_schema (cs : List Char) : List Char :=
  match fencedSqlSearch cs with
  | some g => pyStrip g
  | none =>
    let ms := scanCreateTable (cs.length + 1) cs
    if ms.isEmpty then pyStrip cs
    else pyStrip (List.intercalate (sl "\n\n") ms)

/-! ## `APIRoutePlannerAgent._extract_api_route_plan` -/

/-- Matches of `` ```json\s*\n(.*?)\n``` `` (findall, DOTALL). -/
def fencedJsonBlocks (cs : List Char) : List (List Char) :=
  reFindAllFenced (sl "```json") (sl "\n```") (cs.length + 1) cs

def aprKey : List Char := sl "api_route_plan"

/-- First strategy: walk the fenced json blocks; a block that parses and
holds `api_route_plan` yields that value, one holding `base_url` or
`routes` yields the whole document. -/
def routeStage1 : List (List Char) → Except (List Char) (Option Json)
  | [] => .ok none
  | m :: ms =>
    match jsonLoads (pyStrip m) with
    | none => routeStage1 ms
    | some doc =>
      match pyIn aprKey doc with
      | .error e => .error e
      | .ok true => (pyGetItem doc aprKey).map some
      | .ok false =>
        match pyIn (sl "base_url") doc with
        | .error e => .error e
        | .ok true => .ok (some doc)
        | .ok false =>
          match pyIn (sl "routes") doc with
          | .error e => .error e
          | .ok true => .ok (some doc)
          | .ok false => routeStage1 ms

/-- Match of `\{[\s\n]*"api_route_plan"[\s\S]*?\}` at the start of `cs`. -/
def matchP2At (cs : List Char) : Option (List Char × List Char) :=
  match cs with
  | '{' :: t =>
    let ws := t.takeWhile pyWs
    let t2 := t.drop ws.length
    let key := sl "\"api_route_plan\""
    if key.isPrefixOf t2 then
      match findSub ['}'] (t2.drop key.length) with
      | some (mid, rest) => some ('{' :: (ws ++ key ++ mid ++ ['}']), rest)
      | none => none
    else none
  | _ => none

def findAllP2 : Nat → List Char → List (List Char)
  | 0, _ => []
  | fuel + 1, cs =>
    match matchP2At cs with
    | some (m, rest) => m :: findAllP2 fuel rest
    | none =>
      match cs with
      | [] => []
      | _ :: t => findAllP2 fuel t

/-- Second strategy: loose `{ "api_route_plan" ... }` matches outside
fences; only the `api_route_plan` key is consulted. -/
def routeStage2 : List (List Char) → Except (List Char) (Option Json)
  | [] => .ok none
  | m :: ms =>
    match jsonLoads (pyStrip m) with
    | none => routeStage2 ms
    | some doc =>
      match pyIn aprKey doc with
      | .error e => .error e
      | .ok true => (pyGetItem doc aprKey).map some
      | .ok false => routeStage2 ms

/-- Match of `\{[^{}]*"(?:base_url|routes)"[^{}]*\}` at the start of `cs`:
a brace-free run, delimited by `{` and the first following brace which
must be `}`, containing one of the quoted keys. -/
def matchP3At (cs : List Char) : Option (List Char × List Char) :=
  match cs with
  | '{' :: t =>
    let run := t.takeWhile (fun c => c ≠ '{' && c ≠ '}')
    match t.drop run.length with
    | '}' :: rest =>
      if containsSub (sl "\"base_url\"") run || containsSub (sl "\"routes\"") run then
        some ('{' :: (run ++ ['}']), rest)
      else none
    | _ => none
  | _ => none

def findAllP3 : Nat → List Char → List (List Char)
  | 0, _ => []
  | fuel + 1, cs =>
    match matchP3At cs with
    | some (m, rest) => m :: findAllP3 fuel rest
    | none =>
      match cs with
      | [] => []
      | _ :: t => findAllP3 fuel t

/-- Third strategy: small brace-free JSON objects mentioning `routes` or
`base_url`. -/
def routeStage3 : List (List Char) → Except (List Char) (Option Json)
  | [] => .ok none
  | m :: ms =>
    match jsonLoads (pyStrip m) with
    | none => routeStage3 ms
    | some doc =>
      match pyIn (sl "routes") doc with
      | .error e => .error e
      | .ok true => .ok (some doc)
      | .ok false =>
        match pyIn (sl "base_url") doc with
        | .error e => .error e
        | .ok true => .ok (some doc)
        | .ok false => routeStage3 ms

/-- Line of the last-resort scan: contains `` ```json ``, or both `{` and
`"api_route_plan"`. -/
def lastScanHitLine (line : List Char) : Bool :=
  containsSub (sl "```json") line ||
    (containsSub ['{'] line && containsSub (sl "\"api_route_plan\"") line)

/-- Index of the last hit line, scanning from the end (`range(len-1, -1, -1)`). -/
def lastScanStart (lines : List (List Char)) : Option Nat :=
  (List.range lines.length).reverse.find? (fun i => lastScanHitLine (lines.getD i []))

/-- `re.search(r'\{[\s\S]*\}', s)`: from the first `{` to the last `}`
(greedy), when the last `}` lies after the first `{`. -/
def braceSlice (cs : List Char) : Option (List Char) :=
  match findSub ['{'] cs with
  | none => none
  | some (_, rest) =>
    match findSub ['}'] rest.reverse with
    | none => none
    | some (_, midRev) => some ('{' :: (midRev.reverse ++ ['}']))

/-- Fourth strategy: join the lines from the last hit line to the end,
take the first-`{`-to-last-`}` slice, parse and consult keys. -/
def routeStage4 (cs : List Char) : Except (List Char) (Option Json) :=
  let lines := cs.splitOn '\n'
  match lastScanStart lines with
  | none => .ok none
  | some i =>
    let content := List.intercalate ['\n'] (lines.drop i)
    match braceSlice content with
    | none => .ok none
    | some g =>
      match jsonLoads g with
      | none => .ok none
      | some doc =>
        match pyIn aprKey doc with
        | .error e => .error e
        | .ok true => (pyGetItem doc aprKey).map some
        | .ok false =>
          match pyIn (sl "routes") doc with
          | .error e => .error e
          | .ok true => .ok (some doc)
          | .ok false =>
            match pyIn (sl "base_url") doc with
            | .error e => .error e
            | .ok true => .ok (some doc)
            | .ok false => .ok none

/-- `APIRoutePlannerAgent._extract_api_route_plan`
(src/Backend/src/agents/api_route_planner_agent.py:41): the four
strategies in order, falling back to the empty mapping.  The `.error`
branch models an uncaught `TypeError` from `in`/subscription on a
non-dict document (only `json.JSONDecodeError` is caught in the source). -/
def extract_api_route_plan (cs : List Char) : Except (List Char) Json :=
  match routeStage1 (fencedJsonBlocks cs) with
  | .error e => .error e
  | .ok (some v) => .ok v
  | .ok none =>
    match routeStage2 (findAllP2 (cs.length + 1) cs) with
    | .error e => .error e
    | .ok (some v) => .ok v
    | .ok none =>
      match routeStage3 (findAllP3 (cs.length + 1) cs) with
      | .error e => .error e
      | .ok (some v) => .ok v
      | .ok none =>
        match routeStage4 cs with
        | .error e => .error e
        | .ok (some v) => .ok v
        | .ok none => .ok (Json.obj [])

/-- Spec-side predicate (for the degraded-result claim): no contiguous
slice of the text parses as JSON. -/
def noJsonAnywhere (cs : List Char) : Bool :=
  (List.range (cs.length + 1)).all (fun i =>
    (List.range (cs.length + 1)).all (fun j =>
      (jsonLoads ((cs.drop i).take j)).isNone))

/-! ## `FileGenerator` extraction helpers -/

/-- `FileGenerator._extract_code_from_markdown`
(src/Backend/src/utils/file_generator.py:480): fenced python block, then
generic fenced block, else the stripped original. -/
def extract_code_from_markdown (cs : List Char) : List Char :=
  match reSearchFenced (sl "```python") (sl "```") (cs.length + 1) cs with
  | some g => pyStrip g
  | none =>
    match reSearchFenced (sl "```") (sl "```") (cs.length + 1) cs with
    | some g => pyStrip g
    | none => pyStrip cs

/-- Case-insensitive `findSub`: split at the first position where `pat`
matches ignoring case; the consumed characters keep their original case. -/
def findSubCI (pat : List Char) : List Char → Option (List Char × List Char)
  | [] => if pat.isPrefixOf ([] : List Char) then some ([], []) else none
  | c :: cs =>
    if pat.isPrefixOf (((c :: cs).take pat.length).map Char.toLower) then
      some ([], (c :: cs).drop pat.length)
    else
      match findSubCI pat cs with
      | some (pre, post) => some (c :: pre, post)
      | none => none

/-- Match `` ```\s*\n(.*?CREATE.*?)\n``` `` (IGNORECASE, DOTALL) at the
start of `cs`, returning the captured group. -/
def matchGenCreateAt (cs : List Char) : Option (List Char) :=
  if (sl "```").isPrefixOf cs then
    let tail := cs.drop 3
    firstSome (fun p =>
      let t := tail.drop (p + 1)
      match findSubCI (sl "create") t with
      | none => none
      | some (pre, after) =>
        match findSub (sl "\n```") after with
        | none => none
        | some (mid, _) => some (t.take (pre.length + 6) ++ mid))
      (wsNlCandidates tail)
  else none

def reSearchGenCreate : Nat → List Char → Option (List Char)
  | 0, _ => none
  | fuel + 1, cs =>
    match matchGenCreateAt cs with
    | some g => some g
    | none =>
      match cs with
      | [] => none
      | _ :: t => reSearchGenCreate fuel t

/-- `FileGenerator._extract_sql_from_schema`
(src/Backend/src/utils/file_generator.py:231). -/
def extract_sql_from_schema (cs : List Char) : List Char :=
  match fencedSqlSearch cs with
  | some g => pyStrip g
  | none =>
    match reSearchGenCreate (cs.length + 1) cs with
    | some g => pyStrip g
    | none => pyStrip cs

/-! ## `FileGenerator.save_frontend` file-bundle extraction -/

/-- Language tags of the frontend file pattern, in alternation order. -/
def frontendLangs : List (List Char) :=
  [sl "javascript", sl "jsx", sl "js", sl "typescript", sl "tsx", sl "ts",
   sl "json", sl "css", sl "html"]

/-- Match `` ```(?:javascript|jsx|js|typescript|tsx|ts|json|css|html):([^\n]+)\n(.*?)``` ``
at the start of `cs` (DOTALL): returns ((path, content), rest).  At most
one language alternative can be followed by `:`, so committing to the
first is faithful. -/
def matchTaggedAt (cs : List Char) : Option ((List Char × List Char) × List Char) :=
  if (sl "```").isPrefixOf cs then
    let t := cs.drop 3
    match firstSome
        (fun lang => if (lang ++ [':']).isPrefixOf t then some lang else none)
        frontendLangs with
    | none => none
    | some lang =>
      let t2 := t.drop (lang.length + 1)
      let path := t2.takeWhile (fun c => c ≠ '\n')
      if path.isEmpty then none
      else
        match t2.drop path.length with
        | '\n' :: t3 =>
          match findSub (sl "```") t3 with
          | some (content, rest) => some ((path, content), rest)
          | none => none
        | _ => none
  else none

/-- `re.findall` over the tagged-file pattern. -/
def taggedMatchesAux : Nat → List Char → List (List Char × List Char)
  | 0, _ => []
  | fuel + 1, cs =>
    match matchTaggedAt cs with
    | some (m, rest) => m :: taggedMatchesAux fuel rest
    | none =>
      match cs with
      | [] => []
      | _ :: t => taggedMatchesAux fuel t

def taggedMatches (cs : List Char) : List (List Char × List Char) :=
  taggedMatchesAux (cs.length + 1) cs

/-- Python `str.replace(pat, rep)`: all non-overlapping occurrences, left
to right, scanning the original string. -/
def replaceAll (pat rep : List Char) : Nat → List Char → List Char
  | 0, cs => cs
  | fuel + 1, cs =>
    if pat.isPrefixOf cs then rep ++ replaceAll pat rep fuel (cs.drop pat.length)
    else
      match cs with
      | [] => []
      | c :: t => c :: replaceAll pat rep fuel t

def validExtensions : List (List Char) :=
  [sl ".jsx", sl ".js", sl ".json", sl ".html", sl ".css", sl ".tsx", sl ".ts"]

def commonWords : List (List Char) :=
  [sl "on", sl "off", sl "in", sl "at", sl "to", sl "as", sl "if", sl "of",
   sl "is", sl "it", sl "we", sl "do", sl "go", sl "no"]

/-- Insert-or-overwrite into the `files_saved` mapping (Python dict). -/
def dictInsert (fs : List (List Char × List Char)) (k v : List Char) :
    List (List Char × List Char) :=
  if fs.any (fun kv => kv.1 = k) then
    fs.map (fun kv => if kv.1 = k then (k, v) else kv)
  else fs ++ [(k, v)]

/-- Path cleaning: `filepath.lstrip('/').replace('frontend/', '').strip()`. -/
def cleanPath (filepath1 : List Char) : List Char :=
  pyStrip (replaceAll (sl "frontend/") []
    (filepath1.length + 1) (filepath1.dropWhile (fun c => c = '/')))

/-- Placement of a cleaned path: known config files and paths already
under `public/` or `src/` stay put, bare root-level `.json` names stay at
the root, anything else moves under `src/`. -/
def placePath (fp : List Char) : List Char :=
  if fp = sl "package.json" ∨ fp = sl "tsconfig.json" then fp
  else if (sl "public/").isPrefixOf fp ∨ (sl "src/").isPrefixOf fp then fp
  else if ¬ containsSub ['/'] fp ∧ (sl ".json").isSuffixOf fp then fp
  else sl "src/" ++ fp

/-- Validity checks applied to the cleaned path (before placement). -/
def pathAccepted (fp : List Char) : Bool :=
  let hasExt := validExtensions.any (fun e => e.isSuffixOf fp)
  let isCfg := fp = sl "package.json" || fp = sl "tsconfig.json"
  (hasExt || isCfg) &&
    !(fp.length < 5 && !(fp = sl "package.json" || fp = sl "tsconfig.json")) &&
    !(commonWords.contains (fp.map Char.toLower))

/-- One iteration of the `save_frontend` match loop
(src/Backend/src/utils/file_generator.py:337): skip short content, clean
and validate the path, place the file, record `path ↦ written content`.
(The Python dict records `path ↦ absolute filename`; the file written at
that name holds the stripped content modelled here.) -/
def processMatch (fs : List (List Char × List Char))
    (m : List Char × List Char) : List (List Char × List Char) :=
  let filepath0 := pyStrip m.1
  let content := pyStrip m.2
  if content.isEmpty || content.length < 10 then fs
  else
    let filepath1 := if filepath0.isEmpty then sl "src/App.jsx" else filepath0
    let fpClean := cleanPath filepath1
    if pathAccepted fpClean then dictInsert fs (placePath fpClean) content
    else fs

/-- `FileGenerator.save_frontend`
(src/Backend/src/utils/file_generator.py:322), as the mapping
`relative path ↦ written content`; with no tagged match the whole text
falls back to a single `src/App.jsx`. -/
def extractFrontendFiles (cs : List Char) : List (List Char × List Char) :=
  let ms := taggedMatches cs
  if ms.isEmpty then [(sl "src/App.jsx", extract_code_from_markdown cs)]
  else ms.foldl processMatch []

/-! ## `FileGenerator.generate_project` -/

/-- Content written to one file: literal text, or a `json.dump` of a
mapping (serialisation syntax is irrelevant to every claim). -/
inductive FileContent where
  | text (cs : List Char)
  | jsonDump (kvs : List (List Char × Json))

/-- Default `requirements.txt` (src/Backend/src/utils/file_generator.py:199). -/
def defaultRequirements : List Char :=
  sl "fastapi>=0.104.0\nuvicorn[standard]>=0.24.0\npydantic>=2.5.0\npytest>=7.0.0\n"

/-- The README f-string (src/Backend/src/utils/file_generator.py:135). -/
def readmeContent (description requirements : List Char) : List Char :=
  sl "# Generated Project\n\n## Description\n" ++ description ++
  sl "\n\n## Requirements\n" ++
  (if requirements.isEmpty then sl "None specified" else requirements) ++
  sl "\n\n## Generated Files\n- `main.py`: FastAPI backend REST API\n- `frontend/`: React TypeScript frontend\n- `docs/api_route_plan.json`: API route plan\n- `database/schema.sql`: SQLite database schema\n- `ARCHITECTURE.md`: Architecture document\n\n## Installation\n```bash\npip install -r requirements.txt\n```\n\n## Running\n\n### Backend\n```bash\n# Install dependencies\npip install -r requirements.txt\n\n# Run the FastAPI backend\nuvicorn main:app --reload\n```\n\nThe API will be available at `http://localhost:8000`\nAPI documentation will be available at `http://localhost:8000/docs`\n\n### Frontend\n```bash\ncd frontend\nnpm install\nnpm start\n```\nFrontend runs at `http://localhost:3000`\n\n## Testing\n```bash\npytest tests/\n```\n"

/-- Directories created and files written inside the fresh project folder
(paths relative to it). -/
structure GenProject where
  dirs : List (List Char)
  files : List (List Char × FileContent)

/-- The five unconditional files (file_generator.py:451-458). -/
def baseFiles (architecture database_schema code : List Char)
    (requirements_txt : Option (List Char))
    (description requirements : List Char) : List (List Char × FileContent) :=
  [(sl "ARCHITECTURE.md", .text architecture),
   (sl "database/schema.sql", .text (extract_sql_from_schema database_schema)),
   (sl "main.py", .text (extract_code_from_markdown code)),
   (sl "README.md", .text (readmeContent description requirements)),
   (sl "requirements.txt", .text (match requirements_txt with
      | some r => if r.isEmpty then defaultRequirements else r
      | none => defaultRequirements))]

/-- A `docs/` JSON dump section, written only when the dict argument is
truthy (not `None`, not empty). -/
def docsPart (path : List Char) (o : Option (List (List Char × Json))) :
    List (List Char) × List (List Char × FileContent) :=
  match o with
  | some kvs =>
    if kvs.isEmpty then ([], [])
    else ([sl "docs"], [(path, .jsonDump kvs)])
  | none => ([], [])

/-- The `frontend/` section (`save_frontend`, called only on a non-empty
bundle text). -/
def frontendPart (frontend_code : List Char) :
    List (List Char) × List (List Char × FileContent) :=
  if frontend_code.isEmpty then ([], [])
  else ([sl "frontend"],
    (extractFrontendFiles frontend_code).map
      (fun kv => (sl "frontend/" ++ kv.1, .text kv.2)))

/-- The `tests/` section (`save_tests`, called only on non-empty tests). -/
def testsPart (tests : List Char) :
    List (List Char) × List (List Char × FileContent) :=
  if tests.isEmpty then ([], [])
  else ([sl "tests"], [(sl "tests/test_main.py", .text (extract_code_from_markdown tests))])

/-- `FileGenerator.generate_project`
(src/Backend/src/utils/file_generator.py:414).  Optional dict arguments
are `None` or a mapping; Python truthiness makes `None` and the empty
mapping both skip their section. -/
def generate_project (architecture database_schema code : List Char)
    (api_route_plan api_documentation : Option (List (List Char × Json)))
    (requirements_txt : Option (List Char))
    (frontend_code tests description requirements : List Char) : GenProject :=
  ⟨[sl "database"] ++ (docsPart (sl "docs/api_route_plan.json") api_route_plan).1 ++
     (docsPart (sl "docs/api_documentation.json") api_documentation).1 ++
     (frontendPart frontend_code).1 ++ (testsPart tests).1,
   baseFiles architecture database_schema code requirements_txt description requirements ++
     (docsPart (sl "docs/api_route_plan.json") api_route_plan).2 ++
     (docsPart (sl "docs/api_documentation.json") api_documentation).2 ++
     (frontendPart frontend_code).2 ++ (testsPart tests).2⟩

/-! ## MCP message shapes (src/Backend/src/mcp/message.py) -/

/-- A validated `MCPRequest`.  `content` and `parameters` are JSON-like
mappings; the `message_type` and `timestamp` fields carry defaults and no
claim consults them. -/
structure MCPRequestM where
  message_id : String
  from_agent : String
  to_agent : String
  content : List (String × Json)
  correlation_id : Option String := none
  tool : String
  parameters : List (String × Json)

/-- A validated `MCPResponse`. -/
structure MCPResponseM where
  message_id : String
  from_agent : String
  to_agent : String
  content : List (String × Json)
  correlation_id : Option String := none
  result : Json := Json.null
  success : Bool := true
  error_message : Option String := none

/-- Pydantic validation of `MCPRequest` construction: a field wrapped in
`Option` at the outside is present or absent in the input payload;
declared fields without a default (`message_id`, `from_agent`,
`to_agent`, `content`, `tool`, `parameters`) are required, the rest
default.  The declarations in message.py impose no further constraint
(in particular no non-emptiness check on `tool`). -/
def validateRequest (message_id from_agent to_agent : Option String)
    (content : Option (List (String × Json)))
    (correlation_id : Option (Option String))
    (tool : Option String) (parameters : Option (List (String × Json))) :
    Except String MCPRequestM :=
  match message_id, from_agent, to_agent, content, tool, parameters with
  | some mid, some fa, some ta, some c, some t, some p =>
    .ok { message_id := mid, from_agent := fa, to_agent := ta, content := c,
          correlation_id := correlation_id.getD none, tool := t, parameters := p }
  | _, _, _, _, _, _ => .error "validation error: field required"

/-- Pydantic validation of `MCPResponse` construction: required fields
are `message_id`, `from_agent`, `to_agent`, `content`, `result`;
`correlation_id` is `Optional[str] = None` and so may be absent. -/
def validateResponse (message_id from_agent to_agent : Option String)
    (content : Option (List (String × Json)))
    (correlation_id : Option (Option String))
    (result : Option Json) (success : Option Bool)
    (error_message : Option (Option String)) : Except String MCPResponseM :=
  match message_id, from_agent, to_agent, content, result with
  | some mid, some fa, some ta, some c, some r =>
    .ok { message_id := mid, from_agent := fa, to_agent := ta, content := c,
          correlation_id := correlation_id.getD none, result := r,
          success := success.getD true, error_message := error_message.getD none }
  | _, _, _, _, _ => .error "validation error: field required"

/-! ## MCP dispatch server (src/Backend/src/mcp/server.py)

The server is modelled single-threaded with an explicit flag recording
whether the one `threading.Lock` is held by the running thread.  Python's
`Lock` is not re-entrant, so acquiring it while the flag is set blocks
forever: a distinguished `deadlock` outcome, reported before any fuel
accounting.  A tool handler is a program that may finish (normally or by
raising, `Except.error` = a Python exception) or re-enter the dispatcher
through `send_message`. -/

inductive RunErr where
  | deadlock
  | outOfFuel

/-- Handler bodies: return/raise, or call `self.server.send_message` on a
request and continue with the response. -/
inductive HProg where
  | ret (r : Except String Json)
  | send (req : MCPRequestM) (k : MCPResponseM → HProg)

/-- Messages accepted by `send_message`; only the request branch triggers
`_handle_request`, others are enqueued and answered with `None`. -/
inductive MCPMessageM where
  | request (r : MCPRequestM)
  | notification (message_id from_agent to_agent event : String)

def MCPMessageM.to_agent : MCPMessageM → String
  | .request r => r.to_agent
  | .notification _ _ ta _ => ta

def MCPMessageM.from_agent : MCPMessageM → String
  | .request r => r.from_agent
  | .notification _ fa _ _ => fa

def MCPMessageM.message_id : MCPMessageM → String
  | .request r => r.message_id
  | .notification mid _ _ _ => mid

/-- Server state: registered agent names, the tool registry, the
per-agent message queues (the `message_queue` dict, modelled as a total
map — reads go through `.get(name, [])` so a missing key and an empty
inbox are observationally equal), and a counter standing in for
`uuid.uuid4()`. -/
structure ServerState where
  agents : List String
  tools : List (String × (List (String × Json) → HProg))
  queue : String → List MCPMessageM
  fresh : Nat := 0

def mkUuid (n : Nat) : String := "uuid-" ++ toString n

/-- Inbox of an agent (`message_queue.get(name, [])`). -/
def qGet (st : ServerState) (a : String) : List MCPMessageM := st.queue a

/-- Replace (or create) an agent's inbox. -/
def qSet (st : ServerState) (a : String) (ms : List MCPMessageM) : ServerState :=
  { st with queue := fun x => if x = a then ms else st.queue x }

/-- `self.message_queue[message.to_agent].append(message)`. -/
def enqueue (st : ServerState) (msg : MCPMessageM) : ServerState :=
  qSet st msg.to_agent (qGet st msg.to_agent ++ [msg])

/-- Tool lookup of `_handle_request`: fully-qualified
`"<to_agent>.<tool>"` first, then the bare tool name. -/
def toolLookup (st : ServerState) (r : MCPRequestM) :
    Option (List (String × Json) → HProg) :=
  let key := r.to_agent ++ "." ++ r.tool
  match (st.tools.find? (fun kv => kv.1 = key)).map (fun kv => kv.2) with
  | some f => some f
  | none => (st.tools.find? (fun kv => kv.1 = r.tool)).map (fun kv => kv.2)

def agentNotFoundResponse (st : ServerState) (msg : MCPMessageM) : MCPResponseM :=
  { message_id := mkUuid st.fresh, from_agent := msg.to_agent,
    to_agent := msg.from_agent, content := [],
    correlation_id := some msg.message_id, result := Json.null,
    success := false,
    error_message := some ("Agent " ++ msg.to_agent ++ " not found") }

def toolNotFoundResponse (st : ServerState) (r : MCPRequestM) : MCPResponseM :=
  { message_id := mkUuid st.fresh, from_agent := r.to_agent,
    to_agent := r.from_agent, content := [],
    correlation_id := some r.message_id, result := Json.null,
    success := false,
    error_message := some ("Tool " ++ r.tool ++ " not found for agent " ++ r.to_agent) }

def successResponse (st : ServerState) (r : MCPRequestM) (v : Json) : MCPResponseM :=
  { message_id := mkUuid st.fresh, from_agent := r.to_agent,
    to_agent := r.from_agent, content := [],
    correlation_id := some r.message_id, result := v, success := true }

def handlerErrorResponse (st : ServerState) (r : MCPRequestM) (e : String) : MCPResponseM :=
  { message_id := mkUuid st.fresh, from_agent := r.to_agent,
    to_agent := r.from_agent, content := [],
    correlation_id := some r.message_id, result := Json.null,
    success := false, error_message := some e }

def bumpFresh (st : ServerState) : ServerState := { st with fresh := st.fresh + 1 }

mutual

/-- `MCPServer.send_message` (src/Backend/src/mcp/server.py:44).  The
whole body runs inside `with self.lock:`, so the first step is acquiring
the lock — an immediate deadlock when the running thread already holds
it (checked before any fuel accounting). -/
def sendMessage : Nat → ServerState → Bool → MCPMessageM →
    Except RunErr (Option MCPResponseM × ServerState)
  | fuel, st, lockHeld, msg =>
    if lockHeld then .error .deadlock
    else
      match fuel with
      | 0 => .error .outOfFuel
      | fuel + 1 =>
        if st.agents.contains msg.to_agent then
          let st1 := enqueue st msg
          match msg with
          | .request r =>
            match handleRequest fuel st1 r with
            | .error e => .error e
            | .ok (resp, st2) => .ok (some resp, st2)
          | _ => .ok (none, st1)
        else .ok (some (agentNotFoundResponse st msg), bumpFresh st)

/-- `MCPServer._handle_request` (src/Backend/src/mcp/server.py:77); runs
with the lock held, hence invokes the handler with the lock held. -/
def handleRequest : Nat → ServerState → MCPRequestM →
    Except RunErr (MCPResponseM × ServerState)
  | fuel, st, r =>
    match toolLookup st r with
    | none => .ok (toolNotFoundResponse st r, bumpFresh st)
    | some h =>
      match fuel with
      | 0 => .error .outOfFuel
      | fuel + 1 =>
        match runHandler fuel st true (h r.parameters) with
        | .error e => .error e
        | .ok (.ok v, st') => .ok (successResponse st' r v, bumpFresh st')
        | .ok (.error e, st') => .ok (handlerErrorResponse st' r e, bumpFresh st')

/-- Run a handler body with the given lock state.  A `send` step models
the handler calling `send_message` on the (global) server: it first
re-acquires the non-reentrant lock (before any fuel accounting). -/
def runHandler : Nat → ServerState → Bool → HProg →
    Except RunErr (Except String Json × ServerState)
  | _, st, _, .ret r => .ok (r, st)
  | fuel, st, lockHeld, .send req k =>
    if lockHeld then .error .deadlock
    else
      match fuel with
      | 0 => .error .outOfFuel
      | fuel + 1 =>
        match sendMessage fuel st lockHeld (.request req) with
        | .error e => .error e
        | .ok (some resp, st') => runHandler fuel st' lockHeld (k resp)
        | .ok (none, st') =>
          -- unreachable: `send_message` on a request always returns a response
          .ok (.error "no response", st')

end

/-- `MCPServer.get_messages` (src/Backend/src/mcp/server.py:131):
return the inbox and clear it. -/
def getMessages (st : ServerState) (agent_name : String) :
    List MCPMessageM × ServerState :=
  (qGet st agent_name, qSet st agent_name [])

/-! ## `OrchestratorAgent.process` (src/Backend/src/agents/orchestrator_agent.py:31) -/

/-- Python `value.get(key, default)` on an LLM-derived value: dicts look
up, everything else raises `AttributeError` (uncaught in the
orchestrator). -/
def jGet (j : Json) (k : List Char) (d : Json) : Except String Json :=
  match j with
  | .obj kvs => .ok ((objLookup kvs k).getD d)
  | _ => .error "AttributeError"

def isJStr : Json → Bool
  | .str _ => true
  | _ => false

def inputGet (input : List (String × Json)) (k : String) : Json :=
  ((input.find? (fun kv => kv.1 = k)).map (fun kv => kv.2)).getD (Json.str [])

/-- Step 1 artifact: `architecture_result if isinstance(str) else
architecture_result.get("architecture", "")` (orchestrator_agent.py:54). -/
def orchArch (r : Json) : Except String Json :=
  if isJStr r then .ok r else jGet r (sl "architecture") (Json.str [])

/-- Step 2 artifact (orchestrator_agent.py:63). -/
def orchDb (r : Json) : Json :=
  match r with
  | .obj kvs => (objLookup kvs (sl "database_schema")).getD (Json.str [])
  | _ => r

/-- Step 3 artifact (orchestrator_agent.py:72). -/
def orchApr (r : Json) : Json :=
  match r with
  | .obj kvs => (objLookup kvs (sl "api_route_plan")).getD (Json.obj [])
  | _ => Json.obj []

/-- Step 4 artifact (orchestrator_agent.py:83). -/
def orchCode (r : Json) : Except String Json :=
  if isJStr r then .ok r else jGet r (sl "code") (Json.str [])

/-- Step 4 dependency list (orchestrator_agent.py:84). -/
def orchReqTxt (r : Json) : Json :=
  match r with
  | .obj kvs => (objLookup kvs (sl "requirements_txt")).getD (Json.str [])
  | _ => Json.str []

/-- Step 5 artifact (orchestrator_agent.py:94). -/
def orchFe (r : Json) : Except String Json :=
  if isJStr r then .ok r else jGet r (sl "frontend_code") (Json.str [])

/-- `OrchestratorAgent.process`, with `self.mcp_client.call_agent`
abstracted as an oracle giving each successful call's result (a failing
call raises and aborts the pipeline before producing an artifact set, so
successful runs are exactly the runs of this function that return `.ok`).
Returns the artifact dictionary (or the uncaught exception) together with
the trace of `(target_agent, tool)` calls actually made. -/
def orchestratorProcess (call : String → String → List (String × Json) → Json)
    (input : List (String × Json)) :
    Except String (List (String × Json)) × List (String × String) :=
  let description := inputGet input "description"
  let requirements := inputGet input "requirements"
  let t1 := [("architect", "create_architecture")]
  let archRes := call "architect" "create_architecture"
    [("description", description), ("requirements", requirements)]
  match orchArch archRes with
  | .error e => (.error e, t1)
  | .ok architecture =>
    let t2 := t1 ++ [("database_agent", "create_database_schema")]
    let dbRes := call "database_agent" "create_database_schema"
      [("architecture", architecture), ("requirements", requirements)]
    let database_schema := orchDb dbRes
    let t3 := t2 ++ [("api_route_planner", "plan_api_routes")]
    let aprRes := call "api_route_planner" "plan_api_routes"
      [("architecture", architecture), ("requirements", requirements)]
    let api_route_plan := orchApr aprRes
    let t4 := t3 ++ [("code_generator", "generate_code")]
    let codeRes := call "code_generator" "generate_code"
      [("api_route_plan", api_route_plan), ("database_schema", database_schema),
       ("requirements", requirements)]
    match orchCode codeRes with
    | .error e => (.error e, t4)
    | .ok code =>
      let requirements_txt := orchReqTxt codeRes
      let t5 := t4 ++ [("frontend_generator", "generate_frontend")]
      let feRes := call "frontend_generator" "generate_frontend"
        [("api_route_plan", api_route_plan), ("requirements", requirements)]
      match orchFe feRes with
      | .error e => (.error e, t5)
      | .ok frontend_code =>
        (.ok [("architecture", architecture),
              ("database_schema", database_schema),
              ("api_route_plan", api_route_plan),
              ("code", code),
              ("requirements_txt", requirements_txt),
              ("frontend_code", frontend_code),
              ("agent", Json.str (sl "orchestrator"))], t5)

/-! # Theorems -/

/-- C3, counterexample: message-shape validation does **not** reject a
Response lacking a correlation id (the field defaults to `None`), and
does **not** reject a Request whose tool name is the empty string — both
constructions validate. -/
theorem C3_message_validation_counterexample :
    (validateResponse (some "m1") (some "a") (some "b") (some []) none
        (some Json.null) none none) =
      .ok { message_id := "m1", from_agent := "a", to_agent := "b",
            content := [], correlation_id := none } ∧
    (validateRequest (some "m2") (some "a") (some "b") (some []) none
        (some "") (some [])) =
      .ok { message_id := "m2", from_agent := "a", to_agent := "b",
            content := [], correlation_id := none, tool := "",
            parameters := [] } :=
  ⟨rfl, rfl⟩

/-- C3, amended: validation accepts a Response lacking a correlation id
(defaulting it to null) and accepts a Request with an empty tool name; it
rejects only missing required fields (e.g. a Request with no tool field
at all). -/
theorem C3_message_validation_amended :
    (∀ mid fa ta c res,
      validateResponse (some mid) (some fa) (some ta) (some c) none
          (some res) none none =
        .ok { message_id := mid, from_agent := fa, to_agent := ta,
              content := c, correlation_id := none, result := res } ∧
      (({ message_id := mid, from_agent := fa, to_agent := ta, content := c,
          correlation_id := none, result := res } : MCPResponseM)).correlation_id = none) ∧
    (∀ mid fa ta c ps,
      validateRequest (some mid) (some fa) (some ta) (some c) none
          (some "") (some ps) =
        .ok { message_id := mid, from_agent := fa, to_agent := ta,
              content := c, correlation_id := none, tool := "",
              parameters := ps }) ∧
    (∀ mid fa ta c ci ps,
      validateRequest (some mid) (some fa) (some ta) (some c) ci
          none (some ps) = .error "validation error: field required") :=
  ⟨fun _ _ _ _ _ => ⟨rfl, rfl⟩, fun _ _ _ _ _ => rfl, fun _ _ _ _ _ _ => rfl⟩

/-- The orchestrator's call trace is always a prefix of the five
architect → database → route-plan → code → frontend calls. -/
lemma orch_trace_pref (call : String → String → List (String × Json) → Json)
    (input : List (String × Json)) :
    (orchestratorProcess call input).2 <+:
      [("architect", "create_architecture"),
       ("database_agent", "create_database_schema"),
       ("api_route_planner", "plan_api_routes"),
       ("code_generator", "generate_code"),
       ("frontend_generator", "generate_frontend")] := by
  simp only [orchestratorProcess]
  split
  · exact ⟨_, rfl⟩
  · split
    · exact ⟨_, rfl⟩
    · split
      · exact ⟨_, rfl⟩
      · exact ⟨_, rfl⟩

/-- C2: contrary to the claim (and to `OrchestratorAgent.process`'s own
docstring), no run of the pipeline — however the agent calls answer —
ever invokes the test generator, and no successful run's artifact set
contains a `tests` key: step 6 is commented out in the source. -/
theorem C2_no_test_step (call : String → String → List (String × Json) → Json)
    (input : List (String × Json)) :
    (∀ c ∈ (orchestratorProcess call input).2, c.1 ≠ "test_generator") ∧
    (∀ d, (orchestratorProcess call input).1 = .ok d →
      d.find? (fun kv => kv.1 = "tests") = none) := by
  constructor
  · intro c hc
    have h := (orch_trace_pref call input).subset hc
    simp only [List.mem_cons, List.not_mem_nil, or_false] at h
    rcases h with h | h | h | h | h <;> subst h <;> decide
  · intro d hd
    simp only [orchestratorProcess] at hd
    repeat' split at hd
    all_goals simp only [Prod.fst] at hd
    all_goals first
      | exact Except.noConfusion hd
      | (injection hd with hd; subst hd; simp [List.find?])

/-- C2 witness: a concrete successful run (every agent call returning the
string `"x"`). -/
theorem C2_no_test_step_witness :
    ("architect" : String) ≠ "test_generator" ∧
    List.find? (fun kv => kv.1 = "tests")
      [("architecture", Json.str (sl "x")), ("database_schema", Json.str (sl "x")),
       ("api_route_plan", Json.obj []), ("code", Json.str (sl "x")),
       ("requirements_txt", Json.str []), ("frontend_code", Json.str (sl "x")),
       ("agent", Json.str (sl "orchestrator"))] = none :=
  ⟨(C2_no_test_step (fun _ _ _ => Json.str (sl "x")) []).1
      ("architect", "create_architecture") (by decide),
   (C2_no_test_step (fun _ _ _ => Json.str (sl "x")) []).2 _ rfl⟩

lemma enqueue_tools (st : ServerState) (m : MCPMessageM) :
    (enqueue st m).tools = st.tools := rfl

lemma toolLookup_enqueue (st : ServerState) (m : MCPMessageM) (r : MCPRequestM) :
    toolLookup (enqueue st m) r = toolLookup st r := rfl

/-- C8, counterexample server: `alpha.relay` re-enters the dispatcher by
sending a request to `beta.echo` from inside its own body. -/
def echoHandler : List (String × Json) → HProg :=
  fun _ => .ret (.ok (Json.str (sl "pong")))

def relayInnerReq : MCPRequestM :=
  { message_id := "m-inner", from_agent := "alpha", to_agent := "beta",
    content := [], tool := "echo", parameters := [] }

def relayHandler : List (String × Json) → HProg :=
  fun _ => .send relayInnerReq (fun resp => .ret (.ok resp.result))

def demoServer : ServerState :=
  { agents := ["alpha", "beta"],
    tools := [("alpha.relay", relayHandler), ("beta.echo", echoHandler)],
    queue := fun _ => [] }

def relayReq : MCPRequestM :=
  { message_id := "m0", from_agent := "caller", to_agent := "alpha",
    content := [], tool := "relay", parameters := [] }

/-- C8, counterexample: dispatching to the re-entrant `alpha.relay`
handler deadlocks (at any fuel), because `send_message` calls
`_handle_request` — and hence the handler — inside `with self.lock:`,
and the handler's own `send_message` then re-acquires the non-reentrant
lock. -/
theorem C8_reentrant_handler_counterexample :
    sendMessage 5 demoServer false (.request relayReq) = .error .deadlock ∧
    sendMessage 50 demoServer false (.request relayReq) = .error .deadlock :=
  ⟨rfl, rfl⟩

/-- C8, amended: while dispatch invokes a resolved tool handler the
server's mutual-exclusion lock **is** held, so every handler whose body
re-enters the dispatcher via `send_message` deadlocks instead of
completing — regardless of available fuel. -/
theorem C8_handler_runs_under_lock (fuel : Nat) (st : ServerState)
    (req inner : MCPRequestM) (hdl : List (String × Json) → HProg)
    (k : MCPResponseM → HProg)
    (hreg : st.agents.contains req.to_agent = true)
    (htool : toolLookup st req = some hdl)
    (hsend : hdl req.parameters = HProg.send inner k) :
    sendMessage (fuel + 2) st false (.request req) = .error .deadlock := by
  have hlook : toolLookup (enqueue st (.request req)) req = some hdl := htool
  simp only [sendMessage, handleRequest, MCPMessageM.to_agent, hreg, hlook, hsend]
  rw [runHandler.eq_def]
  rfl

/-- C8 witness: the amended statement at the concrete re-entrant server. -/
theorem C8_handler_runs_under_lock_witness :
    sendMessage 6 demoServer false (.request relayReq) = .error .deadlock :=
  C8_handler_runs_under_lock 4 demoServer relayReq relayInnerReq relayHandler
    (fun resp => .ret (.ok resp.result)) rfl rfl rfl

/-- C1: a Request to an unregistered agent, a Request whose tool resolves
neither fully-qualified nor bare, and a Request whose handler raises, all
make `send_message` **return** (`.ok`, no exception escaping to the
caller) a failure Response with `success = false` and a non-null error
message — the raised exception's text in the handler-fault case. -/
theorem C1_dispatch_failure_responses (fuel : Nat) (st : ServerState)
    (req : MCPRequestM) :
    (st.agents.contains req.to_agent = false →
      sendMessage (fuel + 1) st false (.request req) =
        .ok (some (agentNotFoundResponse st (.request req)), bumpFresh st) ∧
      (agentNotFoundResponse st (.request req)).success = false ∧
      (agentNotFoundResponse st (.request req)).error_message =
        some ("Agent " ++ req.to_agent ++ " not found")) ∧
    (st.agents.contains req.to_agent = true → toolLookup st req = none →
      sendMessage (fuel + 1) st false (.request req) =
        .ok (some (toolNotFoundResponse (enqueue st (.request req)) req),
             bumpFresh (enqueue st (.request req))) ∧
      (toolNotFoundResponse (enqueue st (.request req)) req).success = false ∧
      (toolNotFoundResponse (enqueue st (.request req)) req).error_message =
        some ("Tool " ++ req.tool ++ " not found for agent " ++ req.to_agent)) ∧
    (∀ hdl e st₂, st.agents.contains req.to_agent = true →
      toolLookup st req = some hdl →
      runHandler fuel (enqueue st (.request req)) true (hdl req.parameters) =
        .ok (.error e, st₂) →
      sendMessage (fuel + 2) st false (.request req) =
        .ok (some (handlerErrorResponse st₂ req e), bumpFresh st₂) ∧
      (handlerErrorResponse st₂ req e).success = false ∧
      (handlerErrorResponse st₂ req e).error_message = some e) := by
  refine ⟨fun hreg => ?_, fun hreg htool => ?_, fun hdl e st₂ hreg htool hrun => ?_⟩
  · simp only [sendMessage, MCPMessageM.to_agent, hreg]
    exact ⟨rfl, rfl, rfl⟩
  · have hlook : toolLookup (enqueue st (.request req)) req = none := htool
    simp only [sendMessage, handleRequest, MCPMessageM.to_agent, hreg, hlook]
    exact ⟨rfl, rfl, rfl⟩
  · have hlook : toolLookup (enqueue st (.request req)) req = some hdl := htool
    simp only [sendMessage, handleRequest, MCPMessageM.to_agent, hreg, hlook, hrun]
    exact ⟨rfl, rfl, rfl⟩

/-- C1 witness servers and requests. -/
def c1Server : ServerState :=
  { agents := ["beta"],
    tools := [("beta.boom", fun _ => .ret (.error "boom"))],
    queue := fun _ => [] }

def ghostReq : MCPRequestM :=
  { message_id := "g", from_agent := "x", to_agent := "ghost", content := [],
    tool := "t", parameters := [] }

def noToolReq : MCPRequestM :=
  { message_id := "n", from_agent := "x", to_agent := "beta", content := [],
    tool := "nope", parameters := [] }

def boomReq : MCPRequestM :=
  { message_id := "b", from_agent := "x", to_agent := "beta", content := [],
    tool := "boom", parameters := [] }

/-- C1 witness: the three failure modes on a concrete server. -/
theorem C1_dispatch_failure_responses_witness :
    (sendMessage 1 c1Server false (.request ghostReq) =
      .ok (some (agentNotFoundResponse c1Server (.request ghostReq)), bumpFresh c1Server)) ∧
    (sendMessage 1 c1Server false (.request noToolReq) =
      .ok (some (toolNotFoundResponse (enqueue c1Server (.request noToolReq)) noToolReq),
           bumpFresh (enqueue c1Server (.request noToolReq)))) ∧
    (sendMessage 2 c1Server false (.request boomReq) =
      .ok (some (handlerErrorResponse (enqueue c1Server (.request boomReq)) boomReq "boom"),
           bumpFresh (enqueue c1Server (.request boomReq)))) ∧
    (handlerErrorResponse (enqueue c1Server (.request boomReq)) boomReq "boom").error_message
      = some "boom" :=
  ⟨((C1_dispatch_failure_responses 0 c1Server ghostReq).1 rfl).1,
   ((C1_dispatch_failure_responses 0 c1Server noToolReq).2.1 rfl rfl).1,
   ((C1_dispatch_failure_responses 0 c1Server boomReq).2.2
      (fun _ => .ret (.error "boom")) "boom" _ rfl rfl rfl).1,
   ((C1_dispatch_failure_responses 0 c1Server boomReq).2.2
      (fun _ => .ret (.error "boom")) "boom" _ rfl rfl rfl).2.2⟩

lemma qGet_bumpFresh (st : ServerState) (a : String) :
    qGet (bumpFresh st) a = qGet st a := rfl

lemma qGet_enqueue (st : ServerState) (m : MCPMessageM) (a : String) :
    qGet (enqueue st m) a =
      if a = m.to_agent then qGet st m.to_agent ++ [m] else qGet st a := rfl

lemma qGet_enqueue_pref (st : ServerState) (m : MCPMessageM) (a : String) :
    qGet st a <+: qGet (enqueue st m) a := by
  rw [qGet_enqueue]
  split
  · next heq => rw [heq]; exact ⟨[m], rfl⟩
  · exact List.prefix_rfl

lemma qGet_enqueue_self (st : ServerState) (m : MCPMessageM) :
    qGet (enqueue st m) m.to_agent = qGet st m.to_agent ++ [m] := by
  rw [qGet_enqueue, if_pos rfl]

/-- Queues only grow (as prefixes) under the dispatcher and under handler
execution: nothing in `send_message`/`_handle_request` ever removes a
queued message. -/
lemma server_queues_mono : ∀ fuel : Nat,
    (∀ st lh prog r st', runHandler fuel st lh prog = .ok (r, st') →
       ∀ a, qGet st a <+: qGet st' a) ∧
    (∀ st req resp st', handleRequest fuel st req = .ok (resp, st') →
       ∀ a, qGet st a <+: qGet st' a) ∧
    (∀ st lh msg resp? st', sendMessage fuel st lh msg = .ok (resp?, st') →
       ∀ a, qGet st a <+: qGet st' a) := by
  intro fuel
  induction fuel with
  | zero =>
    refine ⟨fun st lh prog r st' h a => ?_, fun st req resp st' h a => ?_,
            fun st lh msg resp? st' h a => ?_⟩
    · cases prog with
      | ret r0 =>
        simp only [runHandler] at h
        cases h; exact List.prefix_rfl
      | send req k =>
        rw [runHandler.eq_def] at h
        cases lh <;> simp at h
    · simp only [handleRequest] at h
      rcases htl : toolLookup st req with _ | hdl <;> rw [htl] at h
      · cases h; exact (qGet_bumpFresh st a).symm ▸ List.prefix_rfl
      · simp at h
    · simp only [sendMessage] at h
      cases lh <;> simp at h
  | succ fuel ih =>
    obtain ⟨ihR, ihH, ihS⟩ := ih
    refine ⟨fun st lh prog r st' h a => ?_, fun st req resp st' h a => ?_,
            fun st lh msg resp? st' h a => ?_⟩
    · cases prog with
      | ret r0 =>
        simp only [runHandler] at h
        cases h; exact List.prefix_rfl
      | send req k =>
        rw [runHandler.eq_def] at h
        cases lh with
        | true => simp at h
        | false =>
          simp only [Bool.false_eq_true, if_false] at h
          rcases hs : sendMessage fuel st false (.request req) with e | ⟨resp?, st1⟩ <;>
            rw [hs] at h
          · exact absurd h (by simp)
          · rcases resp? with _ | resp
            · cases h
              exact ihS st false (.request req) none st' hs a
            · exact (ihS st false (.request req) (some resp) st1 hs a).trans
                (ihR st1 false (k resp) r st' h a)
    · simp only [handleRequest] at h
      rcases htl : toolLookup st req with _ | hdl <;> rw [htl] at h
      · cases h; exact (qGet_bumpFresh st a).symm ▸ List.prefix_rfl
      · dsimp only at h
        rcases hr : runHandler fuel st true (hdl req.parameters) with e | ⟨res, st1⟩ <;>
          rw [hr] at h
        · exact absurd h (by simp)
        · rcases res with v | e2
          all_goals cases h
          all_goals exact (qGet_bumpFresh st1 a) ▸ ihR st true (hdl req.parameters) _ st1 hr a
    · simp only [sendMessage] at h
      cases lh with
      | true => simp at h
      | false =>
        simp only [Bool.false_eq_true, if_false] at h
        by_cases hc : st.agents.contains msg.to_agent = true
        · rw [if_pos hc] at h
          cases msg with
          | request r =>
            dsimp only at h
            rcases hh : handleRequest fuel (enqueue st (.request r)) r with e | ⟨resp, st2⟩ <;>
              rw [hh] at h
            · exact absurd h (by simp)
            · cases h
              exact (qGet_enqueue_pref st (.request r) a).trans
                (ihH (enqueue st (.request r)) r resp st' hh a)
          | notification mid fa ta ev =>
            cases h
            exact qGet_enqueue_pref st (.notification mid fa ta ev) a
        · rw [if_neg hc] at h
          cases h
          exact (qGet_bumpFresh st a).symm ▸ List.prefix_rfl

/-- C9: a Request delivered to a registered agent is appended to that
agent's inbox and is never removed when its response is produced: after
dispatch the inbox extends the old one followed by the request, a
subsequent `get_messages` returns a list containing the already-answered
request and only then clears the inbox, and the inbox length has grown. -/
theorem C9_inbox_retains_handled_requests (fuel : Nat) (st : ServerState)
    (req : MCPRequestM) (resp? : Option MCPResponseM) (st' : ServerState)
    (hreg : st.agents.contains req.to_agent = true)
    (h : sendMessage fuel st false (.request req) = .ok (resp?, st')) :
    (qGet st req.to_agent ++ [MCPMessageM.request req]) <+: qGet st' req.to_agent ∧
    MCPMessageM.request req ∈ (getMessages st' req.to_agent).1 ∧
    qGet (getMessages st' req.to_agent).2 req.to_agent = [] ∧
    (qGet st req.to_agent).length + 1 ≤ (qGet st' req.to_agent).length := by
  cases fuel with
  | zero => simp [sendMessage] at h
  | succ fuel =>
    simp only [sendMessage, Bool.false_eq_true, if_false, MCPMessageM.to_agent,
      hreg, if_true] at h
    rcases hh : handleRequest fuel (enqueue st (.request req)) req with e | ⟨resp, st2⟩ <;>
      rw [hh] at h
    · exact absurd h (by simp)
    · cases h
      have h1 : qGet (enqueue st (.request req)) req.to_agent <+: qGet st' req.to_agent :=
        (server_queues_mono fuel).2.1 _ _ _ _ hh req.to_agent
      have h2 : qGet (enqueue st (.request req)) req.to_agent =
          qGet st req.to_agent ++ [MCPMessageM.request req] :=
        qGet_enqueue_self st (.request req)
      rw [h2] at h1
      obtain ⟨t, ht⟩ := h1
      refine ⟨⟨t, ht⟩, ?_, ?_, ?_⟩
      · show MCPMessageM.request req ∈ qGet st' req.to_agent
        rw [← ht]; simp
      · simp [getMessages, qGet, qSet]
      · rw [← ht]; simp

/-- C9 witness: dispatching `boomReq` to the registered agent `beta`. -/
theorem C9_inbox_retains_handled_requests_witness :
    (qGet c1Server boomReq.to_agent ++ [MCPMessageM.request boomReq]) <+:
      qGet (bumpFresh (enqueue c1Server (.request boomReq))) boomReq.to_agent ∧
    MCPMessageM.request boomReq ∈
      (getMessages (bumpFresh (enqueue c1Server (.request boomReq))) boomReq.to_agent).1 ∧
    qGet (getMessages (bumpFresh (enqueue c1Server (.request boomReq)))
        boomReq.to_agent).2 boomReq.to_agent = [] ∧
    (qGet c1Server boomReq.to_agent).length + 1 ≤
      (qGet (bumpFresh (enqueue c1Server (.request boomReq))) boomReq.to_agent).length :=
  C9_inbox_retains_handled_requests 2 c1Server boomReq
    (some (handlerErrorResponse (enqueue c1Server (.request boomReq)) boomReq "boom"))
    (bumpFresh (enqueue c1Server (.request boomReq))) rfl rfl

/-- C10: in `save_frontend`, a tagged file block whose trimmed content is
shorter than 10 characters is silently skipped — it contributes nothing
to the mapping whatever its path — and an input all of whose tagged
blocks are short yields the empty mapping (no fallback file either). -/
theorem C10_short_content_skipped :
    (∀ (fs : List (List Char × List Char)) (m : List Char × List Char),
      (pyStrip m.2).length < 10 → processMatch fs m = fs) ∧
    (∀ cs : List Char, taggedMatches cs ≠ [] →
      (∀ m ∈ taggedMatches cs, (pyStrip m.2).length < 10) →
      extractFrontendFiles cs = []) := by
  have skip : ∀ (fs : List (List Char × List Char)) (m : List Char × List Char),
      (pyStrip m.2).length < 10 → processMatch fs m = fs := by
    intro fs m h
    unfold processMatch
    rw [if_pos]
    simp [h]
  refine ⟨skip, fun cs hne hall => ?_⟩
  have key : ∀ (ms : List (List Char × List Char)) (fs : List (List Char × List Char)),
      (∀ m ∈ ms, (pyStrip m.2).length < 10) → ms.foldl processMatch fs = fs := by
    intro ms
    induction ms with
    | nil => intro fs _; rfl
    | cons m t ih =>
      intro fs hall
      rw [List.foldl_cons, skip fs m (hall m (by simp))]
      exact ih fs (fun x hx => hall x (by simp [hx]))
  unfold extractFrontendFiles
  rw [if_neg (by simpa using hne)]
  exact key (taggedMatches cs) [] hall

/-- C10 witness: a concrete short-content block with a valid `.js` path. -/
theorem C10_short_content_skipped_witness :
    processMatch [] (sl "file.js", sl "short") = [] ∧
    extractFrontendFiles (sl "```js:file.js\nshort\n```") = [] :=
  ⟨C10_short_content_skipped.1 [] (sl "file.js", sl "short") (by decide),
   C10_short_content_skipped.2 (sl "```js:file.js\nshort\n```") (by decide) (by decide)⟩

lemma mem_docsPart_dirs {path o a} (h : a ∈ (docsPart path o).1) : a = sl "docs" := by
  rcases o with _ | kvs
  · simp [docsPart] at h
  · by_cases hk : kvs.isEmpty
    · simp [docsPart, hk] at h
    · simpa [docsPart, hk] using h

lemma mem_docsPart_files {path o q} (h : q ∈ (docsPart path o).2.map Prod.fst) :
    q = path := by
  rcases o with _ | kvs
  · simp [docsPart] at h
  · by_cases hk : kvs.isEmpty
    · simp [docsPart, hk] at h
    · simpa [docsPart, hk] using h

lemma mem_testsPart_dirs {t a} (h : a ∈ (testsPart t).1) : a = sl "tests" := by
  by_cases ht : t.isEmpty
  · simp [testsPart, ht] at h
  · simpa [testsPart, ht] using h

lemma mem_testsPart_files {t q} (h : q ∈ (testsPart t).2.map Prod.fst) :
    q = sl "tests/test_main.py" := by
  by_cases ht : t.isEmpty
  · simp [testsPart, ht] at h
  · simpa [testsPart, ht] using h

/-- C7: whatever the artifact set, the materialised project contains
`ARCHITECTURE.md`, `database/schema.sql`, `requirements.txt` and
`README.md`; and it contains a `frontend/` subtree (the directory or any
file under it) iff a non-empty frontend bundle text was supplied. -/
theorem C7_project_layout (arch dbs code : List Char)
    (apr adoc : Option (List (List Char × Json)))
    (rtxt : Option (List Char)) (fe tests desc reqs : List Char) :
    sl "ARCHITECTURE.md" ∈
      (generate_project arch dbs code apr adoc rtxt fe tests desc reqs).files.map Prod.fst ∧
    sl "database/schema.sql" ∈
      (generate_project arch dbs code apr adoc rtxt fe tests desc reqs).files.map Prod.fst ∧
    sl "requirements.txt" ∈
      (generate_project arch dbs code apr adoc rtxt fe tests desc reqs).files.map Prod.fst ∧
    sl "README.md" ∈
      (generate_project arch dbs code apr adoc rtxt fe tests desc reqs).files.map Prod.fst ∧
    ((sl "frontend" ∈ (generate_project arch dbs code apr adoc rtxt fe tests desc reqs).dirs ∨
      ∃ p ∈ (generate_project arch dbs code apr adoc rtxt fe tests desc reqs).files.map Prod.fst,
        (sl "frontend/").isPrefixOf p) ↔ fe ≠ []) := by
  have hbase : ∀ q, q ∈ (baseFiles arch dbs code rtxt desc reqs).map Prod.fst ↔
      (q = sl "ARCHITECTURE.md" ∨ q = sl "database/schema.sql" ∨ q = sl "main.py" ∨
       q = sl "README.md" ∨ q = sl "requirements.txt") := by
    intro q; simp [baseFiles]
  have hmem : ∀ q, q ∈ (baseFiles arch dbs code rtxt desc reqs).map Prod.fst →
      q ∈ (generate_project arch dbs code apr adoc rtxt fe tests desc reqs).files.map Prod.fst := by
    intro q hq
    simp only [generate_project, List.map_append, List.mem_append]
    exact Or.inl (Or.inl (Or.inl (Or.inl hq)))
  refine ⟨hmem _ ((hbase _).mpr (by tauto)), hmem _ ((hbase _).mpr (by tauto)),
          hmem _ ((hbase _).mpr (by tauto)), hmem _ ((hbase _).mpr (by tauto)), ?_⟩
  by_cases hfe : fe.isEmpty
  · have hfe' : fe = [] := by simpa using hfe
    refine iff_of_false ?_ (fun h => h hfe')
    rintro (hd | ⟨p, hp, hpre⟩)
    · simp only [generate_project, List.mem_append] at hd
      rcases hd with (((hd | hd) | hd) | hd) | hd
      · exact absurd (by simpa using hd) (by decide)
      · exact absurd (mem_docsPart_dirs hd) (by decide)
      · exact absurd (mem_docsPart_dirs hd) (by decide)
      · rw [frontendPart, if_pos hfe] at hd; simp at hd
      · exact absurd (mem_testsPart_dirs hd) (by decide)
    · simp only [generate_project, List.map_append, List.mem_append] at hp
      rcases hp with (((hp | hp) | hp) | hp) | hp
      · rcases (hbase _).mp hp with h | h | h | h | h <;> subst h <;>
          exact absurd hpre (by decide)
      · have h := mem_docsPart_files hp; subst h; exact absurd hpre (by decide)
      · have h := mem_docsPart_files hp; subst h; exact absurd hpre (by decide)
      · rw [frontendPart, if_pos hfe] at hp; simp at hp
      · have h := mem_testsPart_files hp; subst h; exact absurd hpre (by decide)
  · refine iff_of_true (Or.inl ?_) (fun h => hfe (by simp [h]))
    simp only [generate_project, List.mem_append]
    refine Or.inl (Or.inr ?_)
    rw [frontendPart, if_neg hfe]
    simp

/-! ### First-occurrence scanning lemmas -/

lemma findSub_split {pat cs pre post : List Char}
    (h : findSub pat cs = some (pre, post)) : cs = pre ++ pat ++ post := by
  induction cs generalizing pre with
  | nil =>
    unfold findSub at h
    split at h
    · next hp =>
      cases h
      have := List.isPrefixOf_iff_prefix.mp hp
      simp at this
      simp [this]
    · cases h
  | cons c t ih =>
    unfold findSub at h
    split at h
    · next hp =>
      cases h
      obtain ⟨r, hr⟩ := List.isPrefixOf_iff_prefix.mp hp
      have hdrop : (c :: t).drop pat.length = r := by rw [← hr, List.drop_left]
      rw [hdrop, ← hr, List.nil_append]
    · next hp =>
      cases hfs : findSub pat t with
      | none => rw [hfs] at h; cases h
      | some pr =>
        rw [hfs] at h
        cases pr with
        | mk pre2 post2 =>
          cases h
          simpa using ih hfs

lemma findSub_post_suffix {pat cs pre post : List Char}
    (h : findSub pat cs = some (pre, post)) : post <:+ cs :=
  ⟨pre ++ pat, by rw [findSub_split h, List.append_assoc]⟩

lemma findSub_pre_inf {pat cs pre post : List Char}
    (h : findSub pat cs = some (pre, post)) : pre <:+: cs :=
  ⟨[], pat ++ post, by rw [findSub_split h]; simp⟩

/-- First occurrence at a designated boundary: when the pattern's head
character does not occur in `pre`, the split lands exactly there. -/
lemma findSub_head (h : Char) (t pre post : List Char) (hpre : h ∉ pre) :
    findSub (h :: t) (pre ++ (h :: t) ++ post) = some (pre, post) := by
  induction pre with
  | nil =>
    simp only [List.nil_append, List.cons_append]
    unfold findSub
    have hp : (h :: t).isPrefixOf (h :: (t ++ post)) = true :=
      List.isPrefixOf_iff_prefix.mpr ⟨post, by simp⟩
    rw [if_pos hp]
    simp [List.drop_left]
  | cons c pre2 ih =>
    have hch : c ≠ h := fun hch => hpre (hch ▸ List.mem_cons_self c pre2)
    have hnp : (h :: t).isPrefixOf (c :: (pre2 ++ (h :: t) ++ post)) = false := by
      simp [List.isPrefixOf]
      intro hne
      exact absurd hne.symm hch
    have ih2 := ih (fun hm => hpre (List.mem_cons_of_mem c hm))
    simp only [List.cons_append, List.append_assoc] at hnp ih2 ⊢
    unfold findSub
    rw [hnp]
    simp only [Bool.false_eq_true, if_false, ih2]

lemma firstSome_eq_some {α β : Type} {f : α → Option β} {l : List α} {b : β}
    (h : firstSome f l = some b) : ∃ a ∈ l, f a = some b := by
  induction l with
  | nil => simp [firstSome] at h
  | cons a t ih =>
    unfold firstSome at h
    cases hf : f a with
    | some b2 => rw [hf] at h; cases h; exact ⟨a, by simp, hf⟩
    | none =>
      rw [hf] at h
      obtain ⟨a2, ha2, hf2⟩ := ih h
      exact ⟨a2, by simp [ha2], hf2⟩

/-- `takeWhile` ignores everything from the first failing element on. -/
lemma takeWhile_append_stop {p : Char → Bool} (a : List Char) {c : Char}
    (d : List Char) (hc : p c = false) :
    (a ++ c :: d).takeWhile p = a.takeWhile p := by
  induction a with
  | nil => simp [List.takeWhile_cons, hc]
  | cons x xs ih =>
    by_cases hx : p x
    · simp only [List.cons_append, List.takeWhile_cons, hx, if_true, ih]
    · simp [List.takeWhile_cons, hx]

/-- When the leading whitespace of `rest` holds no newline, the only
`\s*\n` candidate of `'\n' :: rest` is position 0. -/
lemma wsNlCandidates_single (rest : List Char)
    (hnl : '\n' ∉ rest.takeWhile pyWs) :
    wsNlCandidates ('\n' :: rest) = [0] := by
  unfold wsNlCandidates
  dsimp only
  have hrun : ('\n' :: rest).takeWhile pyWs = '\n' :: rest.takeWhile pyWs := by
    rw [List.takeWhile_cons, if_pos (by decide)]
  rw [hrun]
  have hfil : ((List.range (rest.takeWhile pyWs).length).map Nat.succ).filter
      (fun i => decide (('\n' :: rest.takeWhile pyWs).get? i = some '\n')) = [] := by
    rw [List.filter_map]
    have hnil : (List.range (rest.takeWhile pyWs).length).filter
        ((fun i => decide (('\n' :: rest.takeWhile pyWs).get? i = some '\n')) ∘ Nat.succ) = [] := by
      rw [List.filter_eq_nil_iff]
      intro i _
      simp only [Function.comp_apply, List.get?_cons_succ, decide_eq_true_eq]
      intro hc
      exact hnl (List.get?_mem hc)
    rw [hnil, List.map_nil]
  rw [List.length_cons, List.range_succ_eq_map, List.filter_cons, if_pos (by simp), hfil]
  rfl

/-- A fenced match at the opening marker itself: opener, newline, a body
whose leading whitespace has no further newline and which is free of
backticks, then the closing fence. -/
lemma matchFencedAt_open (op body post : List Char)
    (hnl : '\n' ∉ body.takeWhile pyWs) (hbt : '`' ∉ body) :
    matchFencedAt op (sl "```")
      (op ++ ('\n' :: (body ++ (sl "```" ++ post)))) = some (body, post) := by
  unfold matchFencedAt
  have hp : op.isPrefixOf (op ++ ('\n' :: (body ++ (sl "```" ++ post)))) = true :=
    List.isPrefixOf_iff_prefix.mpr ⟨_, rfl⟩
  rw [if_pos hp, List.drop_left]
  dsimp only
  have hbodytk : (body ++ (sl "```" ++ post)).takeWhile pyWs = body.takeWhile pyWs := by
    have h3 : sl "```" ++ post = '`' :: (sl "``" ++ post) := rfl
    rw [h3]
    exact takeWhile_append_stop body _ (by decide)
  have hcand : wsNlCandidates ('\n' :: (body ++ (sl "```" ++ post))) = [0] := by
    apply wsNlCandidates_single
    rw [hbodytk]
    exact hnl
  rw [hcand]
  have hfs : findSub (sl "```") (body ++ (sl "```" ++ post)) = some (body, post) := by
    have h3 : sl "```" = '`' :: sl "``" := rfl
    rw [h3]
    have hh := findSub_head '`' (sl "``") body post hbt
    simpa using hh
  have hdrop : List.drop (0 + 1) ('\n' :: (body ++ (sl "```" ++ post))) =
      body ++ (sl "```" ++ post) := rfl
  simp only [firstSome, hdrop, hfs]

lemma reSearchFenced_succ (op cl : List Char) (fuel : Nat) (cs : List Char) :
    reSearchFenced op cl (fuel + 1) cs =
      (match matchFencedAt op cl cs with
       | some (g, _) => some g
       | none =>
         match cs with
         | [] => none
         | _ :: t => reSearchFenced op cl fuel t) := rfl

/-- `re.search` skips a prefix free of the opener's leading backtick. -/
lemma reSearchFenced_skip (opT cl : List Char) :
    ∀ (pre : List Char), '`' ∉ pre → ∀ (fuel : Nat) (cs : List Char),
    reSearchFenced ('`' :: opT) cl (pre.length + fuel) (pre ++ cs) =
      reSearchFenced ('`' :: opT) cl fuel cs := by
  intro pre
  induction pre with
  | nil => intro _ fuel cs; simp
  | cons c t ih =>
    intro hpre fuel cs
    have hc : c ≠ '`' := fun hch => hpre (hch ▸ List.mem_cons_self c t)
    have hnm : matchFencedAt ('`' :: opT) cl (c :: (t ++ cs)) = none := by
      unfold matchFencedAt
      have hnp : ('`' :: opT).isPrefixOf (c :: (t ++ cs)) = false := by
        simp [List.isPrefixOf]
        intro hne
        exact absurd hne.symm hc
      rw [hnp]
      simp
    have hl : (c :: t).length + fuel = (t.length + fuel) + 1 := by
      simp [Nat.add_right_comm]
    rw [List.cons_append, hl, reSearchFenced_succ, hnm]
    exact ih (fun hm => hpre (List.mem_cons_of_mem c hm)) fuel cs

lemma reSearchFenced_hit (op cl : List Char) (fuel : Nat) (cs g rest : List Char)
    (h : matchFencedAt op cl cs = some (g, rest)) :
    reSearchFenced op cl (fuel + 1) cs = some g := by
  rw [reSearchFenced_succ, h]

lemma scanCreateTable_succ (fuel : Nat) (cs : List Char) :
    scanCreateTable (fuel + 1) cs =
      (if ctMarker.isPrefixOf ((cs.take 12).map Char.toLower) then
        (if (cs.drop 12).takeWhile (fun c => c ≠ ';') = [] then
          (match cs with
           | [] => []
           | _ :: t => scanCreateTable fuel t)
        else
          (cs.take 12 ++ (cs.drop 12).takeWhile (fun c => c ≠ ';') ++
            (((cs.drop 12).drop ((cs.drop 12).takeWhile (fun c => c ≠ ';')).length).take 1)) ::
            scanCreateTable fuel
              (((cs.drop 12).drop
                (((cs.drop 12).takeWhile (fun c => c ≠ ';')).length +
                  (((cs.drop 12).drop ((cs.drop 12).takeWhile (fun c => c ≠ ';')).length).take 1).length))))
      else
        (match cs with
         | [] => []
         | _ :: t => scanCreateTable fuel t)) := rfl

lemma scanCreateTable_marker : ∀ (fuel : Nat) (cs m : List Char),
    m ∈ scanCreateTable fuel cs → (m.take 12).map Char.toLower = ctMarker := by
  intro fuel
  induction fuel with
  | zero => intro cs m h; simp [scanCreateTable] at h
  | succ fuel ih =>
    intro cs m h
    rw [scanCreateTable_succ] at h
    by_cases hpre : ctMarker.isPrefixOf ((cs.take 12).map Char.toLower) = true
    · rw [if_pos hpre] at h
      by_cases hbody : (cs.drop 12).takeWhile (fun c => c ≠ ';') = []
      · rw [if_pos hbody] at h
        cases cs with
        | nil => simp at h
        | cons c t => exact ih t m h
      · rw [if_neg hbody] at h
        rcases List.mem_cons.mp h with heq | hmem
        · subst heq
          have hp := List.isPrefixOf_iff_prefix.mp hpre
          have hlen : (cs.take 12).length = 12 := by
            have h1 : ctMarker.length ≤ ((cs.take 12).map Char.toLower).length :=
              hp.length_le
            have h2 : ((cs.take 12).map Char.toLower).length = (cs.take 12).length := by simp
            have h3 : (cs.take 12).length ≤ 12 := by simp
            have h4 : ctMarker.length = 12 := by decide
            omega
          have heqm : (cs.take 12).map Char.toLower = ctMarker :=
            (List.IsPrefix.eq_of_length hp (by rw [List.length_map, hlen]; decide)).symm
          set A := cs.take 12 with hA
          rw [List.append_assoc, ← hlen, List.take_left]
          exact heqm
        · cases cs with
          | nil => exact ih [] m hmem
          | cons c t => exact ih _ m hmem
    · rw [if_neg hpre] at h
      cases cs with
      | nil => simp at h
      | cons c t => exact ih t m h

/-- C5: SQL extraction prefers the first fenced ```sql block (returned
trimmed); with no fence but `CREATE TABLE` statements matched
case-insensitively it returns the matches joined by blank lines and
trimmed (each match starting with the case-insensitive marker); with
neither it returns the whole text trimmed. -/
theorem C5_sql_extraction :
    (∀ pre body post : List Char, '`' ∉ pre → '`' ∉ body →
      '\n' ∉ body.takeWhile pyWs →
      extract_sql_schema (pre ++ (sl "```sql" ++ ('\n' :: (body ++ (sl "```" ++ post))))) =
        pyStrip body) ∧
    (∀ cs : List Char, fencedSqlSearch cs = none →
      scanCreateTable (cs.length + 1) cs ≠ [] →
      extract_sql_schema cs =
        pyStrip (List.intercalate (sl "\n\n") (scanCreateTable (cs.length + 1) cs)) ∧
      ∀ m ∈ scanCreateTable (cs.length + 1) cs, (m.take 12).map Char.toLower = ctMarker) ∧
    (∀ cs : List Char, fencedSqlSearch cs = none →
      scanCreateTable (cs.length + 1) cs = [] →
      extract_sql_schema cs = pyStrip cs) := by
  refine ⟨fun pre body post hpre hbody hnl => ?_, fun cs hnone hne => ?_,
          fun cs hnone hnil => ?_⟩
  · have hmatch := matchFencedAt_open (sl "```sql") body post hnl hbody
    have hfound : fencedSqlSearch
        (pre ++ (sl "```sql" ++ ('\n' :: (body ++ (sl "```" ++ post))))) = some body := by
      unfold fencedSqlSearch
      have hfuel : (pre ++ (sl "```sql" ++ ('\n' :: (body ++ (sl "```" ++ post))))).length + 1 =
          pre.length + ((sl "```sql" ++ ('\n' :: (body ++ (sl "```" ++ post)))).length + 1) := by
        simp [List.length_append, Nat.add_assoc]
      rw [hfuel]
      have hskip := reSearchFenced_skip (sl "``sql") (sl "```") pre hpre
        ((sl "```sql" ++ ('\n' :: (body ++ (sl "```" ++ post)))).length + 1)
        (sl "```sql" ++ ('\n' :: (body ++ (sl "```" ++ post))))
      have hcast : ('`' :: sl "``sql") = sl "```sql" := rfl
      rw [hcast] at hskip
      rw [hskip]
      exact reSearchFenced_hit _ _ _ _ _ _ hmatch
    unfold extract_sql_schema
    rw [hfound]
  · unfold extract_sql_schema
    rw [hnone]
    rw [if_neg (by simpa [List.isEmpty_iff] using hne)]
    exact ⟨rfl, fun m hm => scanCreateTable_marker _ _ m hm⟩
  · unfold extract_sql_schema
    rw [hnone, if_pos (by simpa [List.isEmpty_iff] using hnil)]

/-- C5 witness: the three extraction modes at concrete inputs. -/
theorem C5_sql_extraction_witness :
    extract_sql_schema (sl "x " ++ (sl "```sql" ++ ('\n' :: (sl "SELECT 1;" ++
        (sl "```" ++ sl " y"))))) = pyStrip (sl "SELECT 1;") ∧
    extract_sql_schema (sl "use CREATE table t(a int); thanks") =
      pyStrip (List.intercalate (sl "\n\n")
        (scanCreateTable ((sl "use CREATE table t(a int); thanks").length + 1)
          (sl "use CREATE table t(a int); thanks"))) ∧
    extract_sql_schema (sl "plain text") = pyStrip (sl "plain text") :=
  ⟨C5_sql_extraction.1 (sl "x ") (sl "SELECT 1;") (sl " y")
      (by decide) (by decide) (by decide),
   (C5_sql_extraction.2.1 (sl "use CREATE table t(a int); thanks")
      (by decide) (by decide)).1,
   C5_sql_extraction.2.2 (sl "plain text") (by decide) (by decide)⟩

lemma taggedAux_succ (fuel : Nat) (cs : List Char) :
    taggedMatchesAux (fuel + 1) cs =
      (match matchTaggedAt cs with
       | some (m, rest) => m :: taggedMatchesAux fuel rest
       | none =>
         match cs with
         | [] => []
         | _ :: t => taggedMatchesAux fuel t) := rfl

lemma taggedAux_nil (fuel : Nat) : taggedMatchesAux fuel [] = [] := by
  cases fuel <;> rfl

lemma matchTaggedAt_rest_lt {cs : List Char} {m : List Char × List Char}
    {rest : List Char} (h : matchTaggedAt cs = some (m, rest)) :
    rest.length < cs.length := by
  unfold matchTaggedAt at h
  split at h
  · next hpre =>
    dsimp only at h
    cases hfl : firstSome
        (fun lang => if (lang ++ [':']).isPrefixOf (List.drop 3 cs) = true then some lang
          else none) frontendLangs with
    | none => rw [hfl] at h; cases h
    | some lang =>
      rw [hfl] at h
      dsimp only at h
      by_cases hpe : (List.takeWhile (fun c => decide (c ≠ '\n'))
          (List.drop (lang.length + 1) (List.drop 3 cs))).isEmpty = true
      · rw [if_pos hpe] at h; cases h
      · rw [if_neg hpe] at h
        cases hd : List.drop
            (List.takeWhile (fun c => decide (c ≠ '\n'))
              (List.drop (lang.length + 1) (List.drop 3 cs))).length
            (List.drop (lang.length + 1) (List.drop 3 cs)) with
        | nil => rw [hd] at h; cases h
        | cons c t3 =>
          rw [hd] at h
          split at h
          · rename_i x t3x heq
            injection heq with hc ht
            subst ht
            cases hfs : findSub (sl "```") t3 with
            | none => rw [hfs] at h; cases h
            | some pr =>
              obtain ⟨content, rest2⟩ := pr
              rw [hfs] at h
              cases h
              have hsplit := findSub_split hfs
              have hlen3 : rest.length < t3.length := by
                have hfoo : t3.length = content.length + 3 + rest.length := by
                  rw [hsplit]
                  simp only [List.length_append, sl, List.length_cons, List.length_nil]
                omega
              have hlen2 : t3.length <
                  (List.drop (lang.length + 1) (List.drop 3 cs)).length := by
                have hl := congrArg List.length hd
                simp only [List.length_drop, List.length_cons] at hl ⊢
                omega
              have hlen1 : (List.drop (lang.length + 1) (List.drop 3 cs)).length ≤
                  cs.length := by
                simp only [List.length_drop]
                omega
              omega
          · cases h
  · cases h

lemma taggedAux_congr : ∀ (n f1 f2 : Nat) (cs : List Char), cs.length ≤ n →
    cs.length < f1 → cs.length < f2 →
    taggedMatchesAux f1 cs = taggedMatchesAux f2 cs := by
  intro n
  induction n with
  | zero =>
    intro f1 f2 cs h0 _ _
    have hnil : cs = [] := List.length_eq_zero.mp (Nat.le_zero.mp h0)
    subst hnil
    rw [taggedAux_nil, taggedAux_nil]
  | succ n ih =>
    intro f1 f2 cs h0 h1 h2
    cases f1 with
    | zero => omega
    | succ a =>
      cases f2 with
      | zero => omega
      | succ b =>
        cases hm : matchTaggedAt cs with
        | some pr =>
          obtain ⟨m, rest⟩ := pr
          have hlt := matchTaggedAt_rest_lt hm
          rw [taggedAux_succ, taggedAux_succ, hm]
          have := ih a b rest (by omega) (by omega) (by omega)
          simp only [this]
        | none =>
          cases cs with
          | nil => rw [taggedAux_nil, taggedAux_nil]
          | cons c t =>
            rw [taggedAux_succ, taggedAux_succ, hm]
            have hlen : t.length ≤ n := by
              simp only [List.length_cons] at h0
              omega
            have := ih a b t hlen (by simp at h1; omega) (by simp at h2; omega)
            simp only [this]

lemma taggedMatches_pos {cs : List Char} {m : List Char × List Char}
    {rest : List Char} (h : matchTaggedAt cs = some (m, rest)) :
    taggedMatches cs = m :: taggedMatches rest := by
  unfold taggedMatches
  rw [taggedAux_succ, h]
  dsimp only
  have hlt := matchTaggedAt_rest_lt h
  have hc := taggedAux_congr rest.length cs.length (rest.length + 1) rest
    le_rfl hlt (Nat.lt_succ_self _)
  rw [hc]

lemma taggedMatches_skip (c : Char) (t : List Char)
    (h : matchTaggedAt (c :: t) = none) :
    taggedMatches (c :: t) = taggedMatches t := by
  unfold taggedMatches
  have hl : (c :: t).length + 1 = (t.length + 1) + 1 := by simp
  rw [hl, taggedAux_succ, h]

lemma matchTaggedAt_nl (t : List Char) : matchTaggedAt ('\n' :: t) = none := rfl

lemma matchTaggedAt_js (b post : List Char) (hbt : '`' ∉ b) :
    matchTaggedAt
      (sl "```javascript:src/App.jsx" ++ ('\n' :: (b ++ (sl "```" ++ post)))) =
      some ((sl "src/App.jsx", b), post) := by
  have hfs : findSub (sl "```") (b ++ (sl "```" ++ post)) = some (b, post) := by
    have h3 : sl "```" = '`' :: sl "``" := rfl
    rw [h3]
    have hh := findSub_head '`' (sl "``") b post hbt
    simpa using hh
  have key : matchTaggedAt
      (sl "```javascript:src/App.jsx" ++ ('\n' :: (b ++ (sl "```" ++ post)))) =
      (match findSub (sl "```") (b ++ (sl "```" ++ post)) with
       | some (content, rest) => some ((sl "src/App.jsx", content), rest)
       | none => none) := rfl
  rw [key, hfs]

lemma matchTaggedAt_json (b post : List Char) (hbt : '`' ∉ b) :
    matchTaggedAt
      (sl "```json:package.json" ++ ('\n' :: (b ++ (sl "```" ++ post)))) =
      some ((sl "package.json", b), post) := by
  have hfs : findSub (sl "```") (b ++ (sl "```" ++ post)) = some (b, post) := by
    have h3 : sl "```" = '`' :: sl "``" := rfl
    rw [h3]
    have hh := findSub_head '`' (sl "``") b post hbt
    simpa using hh
  have key : matchTaggedAt
      (sl "```json:package.json" ++ ('\n' :: (b ++ (sl "```" ++ post)))) =
      (match findSub (sl "```") (b ++ (sl "```" ++ post)) with
       | some (content, rest) => some ((sl "package.json", content), rest)
       | none => none) := rfl
  rw [key, hfs]

lemma matchTaggedAt_on (b post : List Char) (hbt : '`' ∉ b) :
    matchTaggedAt
      (sl "```javascript:on" ++ ('\n' :: (b ++ (sl "```" ++ post)))) =
      some ((sl "on", b), post) := by
  have hfs : findSub (sl "```") (b ++ (sl "```" ++ post)) = some (b, post) := by
    have h3 : sl "```" = '`' :: sl "``" := rfl
    rw [h3]
    have hh := findSub_head '`' (sl "``") b post hbt
    simpa using hh
  have key : matchTaggedAt
      (sl "```javascript:on" ++ ('\n' :: (b ++ (sl "```" ++ post)))) =
      (match findSub (sl "```") (b ++ (sl "```" ++ post)) with
       | some (content, rest) => some ((sl "on", content), rest)
       | none => none) := rfl
  rw [key, hfs]

lemma pyStrip_isEmpty_false {b : List Char} (h : 10 ≤ (pyStrip b).length) :
    (pyStrip b).isEmpty = false := by
  cases hb : pyStrip b with
  | nil => rw [hb] at h; simp at h
  | cons c t => rfl

lemma processMatch_app (fs : List (List Char × List Char)) (b : List Char)
    (h10 : 10 ≤ (pyStrip b).length) :
    processMatch fs (sl "src/App.jsx", b) =
      dictInsert fs (sl "src/App.jsx") (pyStrip b) := by
  have hcond : ((pyStrip b).isEmpty || decide ((pyStrip b).length < 10)) = false := by
    rw [pyStrip_isEmpty_false h10]
    simp only [Bool.false_or, decide_eq_false_iff_not]
    omega
  unfold processMatch
  dsimp only
  rw [hcond]
  rfl

lemma processMatch_pkg (fs : List (List Char × List Char)) (b : List Char)
    (h10 : 10 ≤ (pyStrip b).length) :
    processMatch fs (sl "package.json", b) =
      dictInsert fs (sl "package.json") (pyStrip b) := by
  have hcond : ((pyStrip b).isEmpty || decide ((pyStrip b).length < 10)) = false := by
    rw [pyStrip_isEmpty_false h10]
    simp only [Bool.false_or, decide_eq_false_iff_not]
    omega
  unfold processMatch
  dsimp only
  rw [hcond]
  rfl

lemma processMatch_on (fs : List (List Char × List Char)) (b : List Char) :
    processMatch fs (sl "on", b) = fs := by
  unfold processMatch
  dsimp only
  by_cases hc : ((pyStrip b).isEmpty || decide ((pyStrip b).length < 10)) = true
  · rw [if_pos hc]
  · rw [if_neg hc]
    rfl

/-- C6 counterexample: an input with exactly two tagged blocks,
`javascript:src/App.jsx` (body kept) and `json:package.json` whose
stripped body is shorter than 10 characters; the block is skipped, so the
produced mapping lacks the key `package.json`, contradicting the claim
that the mapping has exactly the two keys with their bodies. -/
theorem C6_frontend_bundle_counterexample :
    taggedMatches
      (sl "```javascript:src/App.jsx\nconst x = 12345;\n```\n```json:package.json\nnm\n```") =
      [(sl "src/App.jsx", sl "const x = 12345;\n"), (sl "package.json", sl "nm\n")] ∧
    extractFrontendFiles
      (sl "```javascript:src/App.jsx\nconst x = 12345;\n```\n```json:package.json\nnm\n```") =
      [(sl "src/App.jsx", sl "const x = 12345;")] :=
  ⟨rfl, rfl⟩

/-- C6 (amended): for an input holding a `javascript:src/App.jsx` block, a
`json:package.json` block, and a block whose path is the bare word `on`,
where the first two stripped bodies are at least 10 characters long, the
produced mapping has exactly the keys `src/App.jsx` and `package.json`,
each mapped to the stripped body of its block; the `on` block contributes
no entry (its path fails validation). -/
theorem C6_frontend_bundle (b1 b2 b3 : List Char)
    (hb1 : '`' ∉ b1) (hb2 : '`' ∉ b2) (hb3 : '`' ∉ b3)
    (h1 : 10 ≤ (pyStrip b1).length) (h2 : 10 ≤ (pyStrip b2).length) :
    extractFrontendFiles
      (sl "```javascript:src/App.jsx" ++ ('\n' :: (b1 ++ (sl "```" ++
        ('\n' :: (sl "```json:package.json" ++ ('\n' :: (b2 ++ (sl "```" ++
        ('\n' :: (sl "```javascript:on" ++ ('\n' :: (b3 ++ sl "```"))))))))))))) =
      [(sl "src/App.jsx", pyStrip b1), (sl "package.json", pyStrip b2)] := by
  nth_rewrite 3 [show (sl "```" : List Char) = sl "```" ++ ([] : List Char) from
    (List.append_nil _).symm]
  have hm1 := matchTaggedAt_js b1
    ('\n' :: (sl "```json:package.json" ++ ('\n' :: (b2 ++ (sl "```" ++
      ('\n' :: (sl "```javascript:on" ++ ('\n' :: (b3 ++ (sl "```" ++
      ([] : List Char))))))))))) hb1
  have hm2 := matchTaggedAt_json b2
    ('\n' :: (sl "```javascript:on" ++ ('\n' :: (b3 ++ (sl "```" ++
      ([] : List Char)))))) hb2
  have hm3 := matchTaggedAt_on b3 ([] : List Char) hb3
  have ht : taggedMatches
      (sl "```javascript:src/App.jsx" ++ ('\n' :: (b1 ++ (sl "```" ++
        ('\n' :: (sl "```json:package.json" ++ ('\n' :: (b2 ++ (sl "```" ++
        ('\n' :: (sl "```javascript:on" ++ ('\n' :: (b3 ++ (sl "```" ++
        ([] : List Char))))))))))))))) =
      [(sl "src/App.jsx", b1), (sl "package.json", b2), (sl "on", b3)] := by
    rw [taggedMatches_pos hm1, taggedMatches_skip _ _ (matchTaggedAt_nl _),
        taggedMatches_pos hm2, taggedMatches_skip _ _ (matchTaggedAt_nl _),
        taggedMatches_pos hm3]
    rfl
  unfold extractFrontendFiles
  dsimp only
  rw [ht, if_neg (by simp)]
  rw [List.foldl_cons, List.foldl_cons, List.foldl_cons, List.foldl_nil]
  rw [processMatch_app _ _ h1, processMatch_pkg _ _ h2, processMatch_on]
  rfl

/-- C6 witness: the amended theorem at a concrete three-block input. -/
theorem C6_frontend_bundle_witness :
    extractFrontendFiles
      (sl "```javascript:src/App.jsx" ++ ('\n' :: (sl "const x = 12345;" ++ (sl "```" ++
        ('\n' :: (sl "```json:package.json" ++ ('\n' :: (sl "name: package1" ++ (sl "```" ++
        ('\n' :: (sl "```javascript:on" ++ ('\n' :: (sl "alert(1234)" ++ sl "```"))))))))))))) =
      [(sl "src/App.jsx", pyStrip (sl "const x = 12345;")),
       (sl "package.json", pyStrip (sl "name: package1"))] :=
  C6_frontend_bundle (sl "const x = 12345;") (sl "name: package1") (sl "alert(1234)")
    (by decide) (by decide) (by decide) (by decide) (by decide)

lemma noJsonAnywhere_inf {cs l : List Char} (h : noJsonAnywhere cs = true)
    (hinf : l <:+: cs) : jsonLoads l = none := by
  obtain ⟨s, t, hst⟩ := hinf
  have hi : s.length < cs.length + 1 := by
    rw [← hst]; simp [List.length_append]; omega
  have hj : l.length < cs.length + 1 := by
    rw [← hst]; simp [List.length_append]; omega
  have h1 := List.all_eq_true.mp h s.length (List.mem_range.mpr hi)
  have h2 := List.all_eq_true.mp h1 l.length (List.mem_range.mpr hj)
  have hd : cs.drop s.length = l ++ t := by
    rw [← hst, List.append_assoc, List.drop_left]
  have ht2 : (cs.drop s.length).take l.length = l := by
    rw [hd, List.take_left]
  rw [ht2] at h2
  exact Option.isNone_iff_eq_none.mp h2

lemma pyStrip_inf (l : List Char) : pyStrip l <:+: l := by
  have h1 : trimL l <:+ l := List.dropWhile_suffix pyWs
  have h2 : trimR (trimL l) <+: trimL l := by
    apply List.reverse_suffix.mp
    unfold trimR
    rw [List.reverse_reverse]
    exact List.dropWhile_suffix pyWs
  exact h2.isInfix.trans h1.isInfix

lemma matchFencedAt_parts {op cl cs g rest : List Char}
    (h : matchFencedAt op cl cs = some (g, rest)) :
    g <:+: cs ∧ rest <:+ cs := by
  unfold matchFencedAt at h
  split at h
  · dsimp only at h
    obtain ⟨p, _, hfs⟩ := firstSome_eq_some h
    have hsplit := findSub_split hfs
    have hsuf : ((cs.drop op.length).drop (p + 1)) <:+ cs :=
      (List.drop_suffix (p + 1) _).trans (List.drop_suffix op.length cs)
    constructor
    · have hpre : g <+: (cs.drop op.length).drop (p + 1) :=
        ⟨cl ++ rest, by rw [hsplit, List.append_assoc]⟩
      exact hpre.isInfix.trans hsuf.isInfix
    · have hr : rest <:+ (cs.drop op.length).drop (p + 1) := by
        rw [hsplit]
        exact List.suffix_append (g ++ cl) rest
      exact hr.trans hsuf
  · cases h

lemma reFindAllFenced_succ (op cl : List Char) (fuel : Nat) (cs : List Char) :
    reFindAllFenced op cl (fuel + 1) cs =
      (match matchFencedAt op cl cs with
       | some (g, rest) => g :: reFindAllFenced op cl fuel rest
       | none =>
         match cs with
         | [] => []
         | _ :: t => reFindAllFenced op cl fuel t) := rfl

lemma reFindAllFenced_mem_inf (op cl : List Char) :
    ∀ (fuel : Nat) (cs g : List Char), g ∈ reFindAllFenced op cl fuel cs →
      g <:+: cs := by
  intro fuel
  induction fuel with
  | zero => intro cs g hg; cases hg
  | succ fuel ih =>
    intro cs g hg
    rw [reFindAllFenced_succ] at hg
    cases hm : matchFencedAt op cl cs with
    | some pr =>
      obtain ⟨g0, rest⟩ := pr
      rw [hm] at hg
      dsimp only at hg
      rcases List.mem_cons.mp hg with hg0 | hgr
      · subst hg0; exact (matchFencedAt_parts hm).1
      · exact (ih rest g hgr).trans (matchFencedAt_parts hm).2.isInfix
    | none =>
      rw [hm] at hg
      cases cs with
      | nil => cases hg
      | cons c t =>
        dsimp only at hg
        exact (ih t g hg).trans (List.suffix_cons c t).isInfix

lemma takeWhile_drop_eq (p : Char → Bool) (t : List Char) :
    t = t.takeWhile p ++ t.drop (t.takeWhile p).length := by
  conv_lhs => rw [← List.take_append_drop (t.takeWhile p).length t]
  congr 1
  exact (List.prefix_iff_eq_take.mp (List.takeWhile_prefix p)).symm

lemma isPrefix_drop_eq {key t2 : List Char} (h : key.isPrefixOf t2 = true) :
    t2 = key ++ t2.drop key.length := by
  obtain ⟨s, hs⟩ := List.isPrefixOf_iff_prefix.mp h
  conv_lhs => rw [← hs]
  congr 1
  rw [← hs, List.drop_left]

lemma matchP2At_split {cs m rest : List Char}
    (h : matchP2At cs = some (m, rest)) : cs = m ++ rest := by
  unfold matchP2At at h
  split at h
  · rename_i t
    dsimp only at h
    split at h
    · rename_i hpre
      cases heq : findSub ['\x7d']
          (List.drop (sl "\"api_route_plan\"").length
            (List.drop (List.takeWhile pyWs t).length t)) with
      | none => rw [heq] at h; cases h
      | some pr =>
        obtain ⟨mid, rest2⟩ := pr
        rw [heq] at h
        cases h
        have hmid := findSub_split heq
        have hws := takeWhile_drop_eq pyWs t
        have hkey := isPrefix_drop_eq hpre
        conv_lhs => rw [hws, hkey, hmid]
        simp [List.append_assoc]
    · cases h
  · cases h

lemma findAllP2_succ (fuel : Nat) (cs : List Char) :
    findAllP2 (fuel + 1) cs =
      (match matchP2At cs with
       | some (m, rest) => m :: findAllP2 fuel rest
       | none =>
         match cs with
         | [] => []
         | _ :: t => findAllP2 fuel t) := rfl

lemma findAllP2_mem_inf :
    ∀ (fuel : Nat) (cs g : List Char), g ∈ findAllP2 fuel cs → g <:+: cs := by
  intro fuel
  induction fuel with
  | zero => intro cs g hg; cases hg
  | succ fuel ih =>
    intro cs g hg
    rw [findAllP2_succ] at hg
    cases hm : matchP2At cs with
    | some pr =>
      obtain ⟨g0, rest⟩ := pr
      rw [hm] at hg
      dsimp only at hg
      have hsplit := matchP2At_split hm
      rcases List.mem_cons.mp hg with hg0 | hgr
      · subst hg0
        exact ⟨[], rest, by rw [hsplit]; rfl⟩
      · refine (ih rest g hgr).trans ?_
        rw [hsplit]
        exact (List.suffix_append g0 rest).isInfix
    | none =>
      rw [hm] at hg
      cases cs with
      | nil => cases hg
      | cons c t =>
        dsimp only at hg
        exact (ih t g hg).trans (List.suffix_cons c t).isInfix

lemma matchP3At_split {cs m rest : List Char}
    (h : matchP3At cs = some (m, rest)) : cs = m ++ rest := by
  unfold matchP3At at h
  split at h
  · rename_i t
    dsimp only at h
    cases hd : List.drop
        (List.takeWhile (fun c => c ≠ '\x7b' && c ≠ '\x7d') t).length t with
    | nil => rw [hd] at h; cases h
    | cons c r =>
      rw [hd] at h
      split at h
      · rename_i x rr heqc
        injection heqc with hc hr
        subst hc
        subst hr
        split at h
        · cases h
          have hrun := takeWhile_drop_eq (fun c => c ≠ '\x7b' && c ≠ '\x7d') t
          conv_lhs => rw [hrun, hd]
          simp [List.append_assoc]
        · cases h
      · cases h
  · cases h

lemma findAllP3_succ (fuel : Nat) (cs : List Char) :
    findAllP3 (fuel + 1) cs =
      (match matchP3At cs with
       | some (m, rest) => m :: findAllP3 fuel rest
       | none =>
         match cs with
         | [] => []
         | _ :: t => findAllP3 fuel t) := rfl

lemma findAllP3_mem_inf :
    ∀ (fuel : Nat) (cs g : List Char), g ∈ findAllP3 fuel cs → g <:+: cs := by
  intro fuel
  induction fuel with
  | zero => intro cs g hg; cases hg
  | succ fuel ih =>
    intro cs g hg
    rw [findAllP3_succ] at hg
    cases hm : matchP3At cs with
    | some pr =>
      obtain ⟨g0, rest⟩ := pr
      rw [hm] at hg
      dsimp only at hg
      have hsplit := matchP3At_split hm
      rcases List.mem_cons.mp hg with hg0 | hgr
      · subst hg0
        exact ⟨[], rest, by rw [hsplit]; rfl⟩
      · refine (ih rest g hgr).trans ?_
        rw [hsplit]
        exact (List.suffix_append g0 rest).isInfix
    | none =>
      rw [hm] at hg
      cases cs with
      | nil => cases hg
      | cons c t =>
        dsimp only at hg
        exact (ih t g hg).trans (List.suffix_cons c t).isInfix

lemma braceSlice_inf {cs g : List Char} (h : braceSlice cs = some g) :
    g <:+: cs := by
  unfold braceSlice at h
  cases h1 : findSub ['\x7b'] cs with
  | none => rw [h1] at h; cases h
  | some pr =>
    obtain ⟨pre1, rest⟩ := pr
    rw [h1] at h
    dsimp only at h
    cases h2 : findSub ['\x7d'] rest.reverse with
    | none => rw [h2] at h; cases h
    | some pr2 =>
      obtain ⟨a, midRev⟩ := pr2
      rw [h2] at h
      dsimp only at h
      cases h
      have hs1 := findSub_split h1
      have hs2 := findSub_split h2
      have hrest : rest = midRev.reverse ++ ('\x7d' :: a.reverse) := by
        have h3 := congrArg List.reverse hs2
        rw [List.reverse_reverse] at h3
        rw [h3]
        simp
      refine ⟨pre1, a.reverse, ?_⟩
      rw [hs1, hrest]
      simp

lemma intercalate_drop_suffix (s : Char) (lines : List (List Char)) :
    ∀ i : Nat, List.intercalate [s] (lines.drop i) <:+ List.intercalate [s] lines := by
  induction lines with
  | nil =>
    intro i
    rw [List.drop_nil]
  | cons l ls ih =>
    intro i
    cases i with
    | zero => exact List.suffix_refl _
    | succ j =>
      rw [List.drop_succ_cons]
      cases ls with
      | nil =>
        rw [List.drop_nil]
        exact List.nil_suffix
      | cons m ms =>
        have h2 : List.intercalate [s] (m :: ms) <:+
            List.intercalate [s] (l :: m :: ms) := by
          have hc : List.intercalate [s] (l :: m :: ms) =
              l ++ [s] ++ List.intercalate [s] (m :: ms) := by
            simp [List.intercalate, List.intersperse]
          rw [hc]
          exact List.suffix_append (l ++ [s]) _
        exact (ih j).trans h2

lemma routeStage1_cons_none {m : List Char} (ms : List (List Char))
    (hm : jsonLoads (pyStrip m) = none) :
    routeStage1 (m :: ms) = routeStage1 ms := by
  rw [routeStage1.eq_def]
  dsimp only
  rw [hm]

lemma routeStage1_none (ms : List (List Char))
    (h : ∀ m ∈ ms, jsonLoads (pyStrip m) = none) :
    routeStage1 ms = .ok none := by
  induction ms with
  | nil => rfl
  | cons m ms ih =>
    rw [routeStage1_cons_none ms (h m (by simp))]
    exact ih (fun x hx => h x (by simp [hx]))

lemma routeStage2_cons_none {m : List Char} (ms : List (List Char))
    (hm : jsonLoads (pyStrip m) = none) :
    routeStage2 (m :: ms) = routeStage2 ms := by
  rw [routeStage2.eq_def]
  dsimp only
  rw [hm]

lemma routeStage2_none (ms : List (List Char))
    (h : ∀ m ∈ ms, jsonLoads (pyStrip m) = none) :
    routeStage2 ms = .ok none := by
  induction ms with
  | nil => rfl
  | cons m ms ih =>
    rw [routeStage2_cons_none ms (h m (by simp))]
    exact ih (fun x hx => h x (by simp [hx]))

lemma routeStage3_cons_none {m : List Char} (ms : List (List Char))
    (hm : jsonLoads (pyStrip m) = none) :
    routeStage3 (m :: ms) = routeStage3 ms := by
  rw [routeStage3.eq_def]
  dsimp only
  rw [hm]

lemma routeStage3_none (ms : List (List Char))
    (h : ∀ m ∈ ms, jsonLoads (pyStrip m) = none) :
    routeStage3 ms = .ok none := by
  induction ms with
  | nil => rfl
  | cons m ms ih =>
    rw [routeStage3_cons_none ms (h m (by simp))]
    exact ih (fun x hx => h x (by simp [hx]))

lemma routeStage4_none (cs : List Char)
    (hall : ∀ l, l <:+: cs → jsonLoads l = none) :
    routeStage4 cs = .ok none := by
  unfold routeStage4
  dsimp only
  cases hls : lastScanStart (cs.splitOn '\n') with
  | none => rfl
  | some i =>
    dsimp only
    cases hbs : braceSlice (List.intercalate ['\n'] ((cs.splitOn '\n').drop i)) with
    | none => rfl
    | some g =>
      dsimp only
      have hsuf : List.intercalate ['\n'] ((cs.splitOn '\n').drop i) <:+ cs := by
        have h1 := intercalate_drop_suffix '\n' (cs.splitOn '\n') i
        have h2 : List.intercalate ['\n'] (cs.splitOn '\n') = cs :=
          @List.intercalate_splitOn Char cs '\n' inferInstance
        rw [h2] at h1
        exact h1
      have hg : jsonLoads g = none :=
        hall g ((braceSlice_inf hbs).trans hsuf.isInfix)
      rw [hg]

lemma routeStage1_skip (bs1 rest : List (List Char))
    (h : ∀ m ∈ bs1, jsonLoads (pyStrip m) = none) :
    routeStage1 (bs1 ++ rest) = routeStage1 rest := by
  induction bs1 with
  | nil => rfl
  | cons m ms ih =>
    rw [List.cons_append, routeStage1_cons_none _ (h m (by simp))]
    exact ih (fun x hx => h x (by simp [hx]))

lemma routeStage1_hit (b : List Char) (bs2 : List (List Char))
    (kvs : List (List Char × Json)) (v : Json)
    (hparse : jsonLoads (pyStrip b) = some (Json.obj kvs))
    (hlook : objLookup kvs aprKey = some v) :
    routeStage1 (b :: bs2) = .ok (some v) := by
  rw [routeStage1.eq_def]
  dsimp only
  rw [hparse]
  dsimp only [pyIn, pyGetItem]
  rw [hlook]
  rfl

/-- C4 counterexample: two fenced json blocks, the first holding only
`base_url`, the second holding `api_route_plan`; the earlier block wins, so
extraction does not return the `api_route_plan` value even though a fenced
json block with that key is present. -/
theorem C4_route_plan_counterexample :
    fencedJsonBlocks
      (sl "```json\n\x7b\"base_url\": \"Y\"\x7d\n```\n```json\n\x7b\"api_route_plan\": \x7b\"routes\": []\x7d\x7d\n```") =
      [sl "\x7b\"base_url\": \"Y\"\x7d",
       sl "\x7b\"api_route_plan\": \x7b\"routes\": []\x7d\x7d"] ∧
    jsonLoads (sl "\x7b\"api_route_plan\": \x7b\"routes\": []\x7d\x7d") =
      some (Json.obj [(aprKey, Json.obj [(sl "routes", Json.arr [])])]) ∧
    extract_api_route_plan
      (sl "```json\n\x7b\"base_url\": \"Y\"\x7d\n```\n```json\n\x7b\"api_route_plan\": \x7b\"routes\": []\x7d\x7d\n```") =
      .ok (Json.obj [(sl "base_url", Json.str (sl "Y"))]) :=
  ⟨rfl, rfl, rfl⟩

/-- C4 (amended): extraction returns the `api_route_plan` value of the
first fenced json block that parses as a JSON object when the blocks
before it fail to parse and that first block holds the key; and for an
input in which no contiguous slice parses as JSON, extraction returns the
empty mapping without raising. -/
theorem C4_route_plan_extraction (cs : List Char) :
    (∀ bs1 b bs2 kvs v,
      fencedJsonBlocks cs = bs1 ++ b :: bs2 →
      (∀ m ∈ bs1, jsonLoads (pyStrip m) = none) →
      jsonLoads (pyStrip b) = some (Json.obj kvs) →
      objLookup kvs aprKey = some v →
      extract_api_route_plan cs = Except.ok v) ∧
    (noJsonAnywhere cs = true →
      extract_api_route_plan cs = Except.ok (Json.obj [])) := by
  constructor
  · intro bs1 b bs2 kvs v hsplit hskip hparse hlook
    have h1 : routeStage1 (fencedJsonBlocks cs) = .ok (some v) := by
      rw [hsplit, routeStage1_skip bs1 _ hskip,
        routeStage1_hit b bs2 kvs v hparse hlook]
    unfold extract_api_route_plan
    rw [h1]
  · intro hnone
    have hall : ∀ l, l <:+: cs → jsonLoads l = none :=
      fun l hl => noJsonAnywhere_inf hnone hl
    have h1 : routeStage1 (fencedJsonBlocks cs) = .ok none :=
      routeStage1_none _ (fun m hm => hall _
        ((pyStrip_inf m).trans
          (reFindAllFenced_mem_inf (sl "```json") (sl "\n```") _ _ _ hm)))
    have h2 : routeStage2 (findAllP2 (cs.length + 1) cs) = .ok none :=
      routeStage2_none _ (fun m hm => hall _
        ((pyStrip_inf m).trans (findAllP2_mem_inf _ _ _ hm)))
    have h3 : routeStage3 (findAllP3 (cs.length + 1) cs) = .ok none :=
      routeStage3_none _ (fun m hm => hall _
        ((pyStrip_inf m).trans (findAllP3_mem_inf _ _ _ hm)))
    have h4 := routeStage4_none cs hall
    unfold extract_api_route_plan
    rw [h1, h2, h3, h4]

/-- C4 witness: the amended theorem at a concrete single-block input and a
concrete JSON-free input. -/
theorem C4_route_plan_witness :
    extract_api_route_plan
      (sl "```json\n\x7b\"api_route_plan\": \x7b\"routes\": []\x7d\x7d\n```") =
      Except.ok (Json.obj [(sl "routes", Json.arr [])]) ∧
    extract_api_route_plan (sl "no json present") = Except.ok (Json.obj []) :=
  ⟨(C4_route_plan_extraction
      (sl "```json\n\x7b\"api_route_plan\": \x7b\"routes\": []\x7d\x7d\n```")).1
      [] (sl "\x7b\"api_route_plan\": \x7b\"routes\": []\x7d\x7d") []
      [(aprKey, Json.obj [(sl "routes", Json.arr [])])]
      (Json.obj [(sl "routes", Json.arr [])])
      rfl (by simp) rfl rfl,
   (C4_route_plan_extraction (sl "no json present")).2 (by decide)⟩

/-- C7 witness: a concrete artifact set with a frontend bundle. -/
theorem C7_project_layout_witness :
    sl "ARCHITECTURE.md" ∈
      (generate_project (sl "a") (sl "s") (sl "c") none none none (sl "fe")
        [] [] []).files.map Prod.fst ∧
    sl "fe" ≠ ([] : List Char) :=
  ⟨(C7_project_layout (sl "a") (sl "s") (sl "c") none none none (sl "fe") [] [] []).1,
   (C7_project_layout (sl "a") (sl "s") (sl "c") none none none (sl "fe") [] [] []).2.2.2.2.mp
     (Or.inl (by decide))⟩

end EngAi
